import Mathlib

/-!
Verification of the `elasticmate` migration engine
(`pkg/migration/migration.go`) against its design specification.

The Go package is shallowly embedded:

* `computeVersion` (migration.go:41-50) is embedded on top of a full
  executable SHA-256 over `Nat` byte lists (machine words are `Nat`
  reduced `% 2^32`), together with UTF-8 encoding of strings and the
  hexadecimal encoder of `encoding/hex`.
* The `MigrationManager` operations (`Register`, `readVersionsFromFile`,
  `writeVersionsToFile`, `GetAppliedMigrations`, `RecordMigration`,
  `RunMigrations`) are embedded as pure functions over an explicit
  `World` state holding the tracking file and the tracking index.
* `sort.Slice` is embedded by its documented contract (a permutation
  that is sorted by the comparison function, with NO stability
  guarantee), as a relation; the run loop itself is a function of the
  chosen sorted slice.

All definitions are executable so that concrete runs can be settled by
`decide` / `rfl`.
-/

set_option maxRecDepth 10000

namespace Elasticmate

/-! ## SHA-256 over byte lists (crypto/sha256)

Bytes and 32-bit words are `Nat`s; word arithmetic is truncated with
`w32` (`% 2^32`) exactly where Go's `uint32` overflows. -/

/-- Truncation to a 32-bit word. -/
def w32 (x : Nat) : Nat := x % 4294967296

/-- 32-bit rotate right. -/
def rotr32 (n x : Nat) : Nat := w32 ((x >>> n) ||| (x <<< (32 - n)))

/-- 32-bit bitwise complement. -/
def not32 (x : Nat) : Nat := x ^^^ 4294967295

/-- The 64 SHA-256 round constants (FIPS 180-4, written in decimal). -/
def shaK : List Nat :=
  [1116352408, 1899447441, 3049323471, 3921009573, 961987163, 1508970993,
   2453635748, 2870763221, 3624381080, 310598401, 607225278, 1426881987,
   1925078388, 2162078206, 2614888103, 3248222580, 3835390401, 4022224774,
   264347078, 604807628, 770255983, 1249150122, 1555081692, 1996064986,
   2554220882, 2821834349, 2952996808, 3210313671, 3336571891, 3584528711,
   113926993, 338241895, 666307205, 773529912, 1294757372, 1396182291,
   1695183700, 1986661051, 2177026350, 2456956037, 2730485921, 2820302411,
   3259730800, 3345764771, 3516065817, 3600352804, 4094571909, 275423344,
   430227734, 506948616, 659060556, 883997877, 958139571, 1322822218,
   1537002063, 1747873779, 1955562222, 2024104815, 2227730452, 2361852424,
   2428436474, 2756734187, 3204031479, 3329325298]

/-- Big-endian byte decomposition of `x` into `n` bytes. -/
def bigEndianBytes (n x : Nat) : List Nat :=
  (List.range n).map (fun i => (x >>> (8 * (n - 1 - i))) % 256)

/-- SHA-256 padding: append `0x80`, zero bytes up to 56 mod 64, and the
64-bit big-endian bit length. -/
def padMessage (msg : List Nat) : List Nat :=
  let L := msg.length
  let k := (120 - ((L + 1) % 64)) % 64
  msg ++ [0x80] ++ List.replicate k 0 ++ bigEndianBytes 8 (L * 8)

/-- Big-endian 4-byte groups to 32-bit words. -/
def bytesToWords : List Nat → List Nat
  | b0 :: b1 :: b2 :: b3 :: rest =>
      (((b0 * 256 + b1) * 256 + b2) * 256 + b3) :: bytesToWords rest
  | _ => []

/-- Split into 64-byte chunks (fuelled to keep the recursion structural). -/
def chunks64Aux : Nat → List Nat → List (List Nat)
  | 0, _ => []
  | _, [] => []
  | fuel + 1, l => l.take 64 :: chunks64Aux fuel (l.drop 64)

/-- Split a padded message into its 64-byte chunks. -/
def chunks64 (l : List Nat) : List (List Nat) := chunks64Aux l.length l

/-- σ₀ of the message schedule. -/
def smallSigma0 (x : Nat) : Nat := (rotr32 7 x) ^^^ (rotr32 18 x) ^^^ (x >>> 3)

/-- σ₁ of the message schedule. -/
def smallSigma1 (x : Nat) : Nat := (rotr32 17 x) ^^^ (rotr32 19 x) ^^^ (x >>> 10)

/-- Extend the 16 chunk words to the 64 schedule words. -/
def extendSchedule : Nat → List Nat → List Nat
  | 0, ws => ws
  | n + 1, ws =>
      let i := ws.length
      let nw := w32 (smallSigma1 (ws.getD (i - 2) 0) + ws.getD (i - 7) 0 +
                     smallSigma0 (ws.getD (i - 15) 0) + ws.getD (i - 16) 0)
      extendSchedule n (ws ++ [nw])

/-- The 64-word message schedule of one chunk. -/
def schedule (chunk : List Nat) : List Nat := extendSchedule 48 (bytesToWords chunk)

/-- The eight 32-bit working variables of the compression function. -/
structure Hash8 where
  a : Nat
  b : Nat
  c : Nat
  d : Nat
  e : Nat
  f : Nat
  g : Nat
  h : Nat
deriving DecidableEq, Repr

/-- Σ₀. -/
def bigSigma0 (x : Nat) : Nat := (rotr32 2 x) ^^^ (rotr32 13 x) ^^^ (rotr32 22 x)

/-- Σ₁. -/
def bigSigma1 (x : Nat) : Nat := (rotr32 6 x) ^^^ (rotr32 11 x) ^^^ (rotr32 25 x)

/-- Choice function. -/
def chFn (x y z : Nat) : Nat := (x &&& y) ^^^ (not32 x &&& z)

/-- Majority function. -/
def majFn (x y z : Nat) : Nat := (x &&& y) ^^^ (x &&& z) ^^^ (y &&& z)

/-- One compression round. -/
def shaRound (st : Hash8) (k w : Nat) : Hash8 :=
  let t1 := w32 (st.h + bigSigma1 st.e + chFn st.e st.f st.g + k + w)
  let t2 := w32 (bigSigma0 st.a + majFn st.a st.b st.c)
  ⟨w32 (t1 + t2), st.a, st.b, st.c, w32 (st.d + t1), st.e, st.f, st.g⟩

/-- Compress one 64-byte chunk into the running hash state. -/
def compressChunk (st : Hash8) (chunk : List Nat) : Hash8 :=
  let ws := schedule chunk
  let fin := (shaK.zip ws).foldl (fun s kw => shaRound s kw.1 kw.2) st
  ⟨w32 (st.a + fin.a), w32 (st.b + fin.b), w32 (st.c + fin.c), w32 (st.d + fin.d),
   w32 (st.e + fin.e), w32 (st.f + fin.f), w32 (st.g + fin.g), w32 (st.h + fin.h)⟩

/-- The SHA-256 initial hash value (FIPS 180-4, written in decimal). -/
def sha256Init : Hash8 :=
  ⟨1779033703, 3144134277, 1013904242, 2773480762,
   1359893119, 2600822924, 528734635, 1541459225⟩

/-- The 32-byte big-endian digest of a final hash state. -/
def digestBytes (st : Hash8) : List Nat :=
  bigEndianBytes 4 st.a ++ bigEndianBytes 4 st.b ++ bigEndianBytes 4 st.c ++
  bigEndianBytes 4 st.d ++ bigEndianBytes 4 st.e ++ bigEndianBytes 4 st.f ++
  bigEndianBytes 4 st.g ++ bigEndianBytes 4 st.h

/-- SHA-256 of a byte list: pad, compress every chunk, emit the digest.
Feeding the bytes in one go agrees with Go's incremental
`hasher.Write(a); hasher.Write(b)` on `a ++ b`. -/
def sha256Bytes (msg : List Nat) : List Nat :=
  digestBytes ((chunks64 (padMessage msg)).foldl compressChunk sha256Init)

/-! ## Hex encoding (encoding/hex) and UTF-8 bytes of a string -/

/-- The lowercase hexadecimal alphabet, as `encoding/hex` uses it. -/
def hexAlphabet : List Char := "0123456789abcdef".data

/-- The hex digit of `n % 16`. -/
def hexDigit (n : Nat) : Char := hexAlphabet.getD (n % 16) '0'

/-- A character of the lowercase hexadecimal alphabet. -/
def isHexChar (c : Char) : Bool := hexAlphabet.contains c

/-- `hex.EncodeToString`: two lowercase hex digits per byte, high nibble
first. -/
def hexEncode (bytes : List Nat) : List Char :=
  (bytes.map (fun b => [hexDigit (b / 16), hexDigit b])).flatten

/-- UTF-8 encoding of one scalar value (Go strings are UTF-8 bytes),
written with `/` and `%` by powers of 64 (equal to the usual
shift-and-mask form on every scalar value). -/
def utf8CharBytes (c : Nat) : List Nat :=
  if c < 0x80 then [c]
  else if c < 0x800 then
    [0xc0 + c / 64, 0x80 + c % 64]
  else if c < 0x10000 then
    [0xe0 + c / 4096, 0x80 + c / 64 % 64, 0x80 + c % 64]
  else
    [0xf0 + c / 262144, 0x80 + c / 4096 % 64, 0x80 + c / 64 % 64, 0x80 + c % 64]

/-- The UTF-8 bytes of a string. -/
def strBytes (s : String) : List Nat := (s.data.map (fun c => utf8CharBytes c.toNat)).flatten

/-- The byte sequence `computeVersion` feeds into SHA-256: the bytes of
the UpFunc's runtime name (`hasher.Write([]byte(funcName))`) followed by
the bytes of the description (`hasher.Write([]byte(m.Description))`). -/
def versionHashInput (funcName description : String) : List Nat :=
  strBytes funcName ++ strBytes description

/-- `Migration.computeVersion` (migration.go:41-50): hex-encode the
SHA-256 of the UpFunc's runtime name followed by the description, and
keep the first 8 hex characters. -/
def computeVersion (funcName description : String) : String :=
  String.mk ((hexEncode (sha256Bytes (versionHashInput funcName description))).take 8)

example : strBytes "é" = [0xc3, 0xa9] := by decide

-- FIPS 180-4 test vector, pinning the embedding of crypto/sha256.
example : String.mk (hexEncode (sha256Bytes (strBytes "abc"))) =
    "ba7816bf8f01cfea414140de5dae2223b00361a396177a9cb410ff61f20015ad" := by rfl

example : computeVersion "main.createUsersIndex" "Create users index" = "54f03a2b" := by rfl

/-! ## Data model (migration.go:22-76)

A Go `UpFunc` value is observable to the Manager through exactly two
channels: its runtime name (`runtime.FuncForPC(...).Name()`, consumed
by `computeVersion` and `RecordMigration`) and the error it returns
when invoked (its side effects hit only the external schema store,
which is out of scope).  The embedding therefore carries the function
as the pair `FuncName` / `UpErr`, where `UpErr = none` means the body
returns `nil` and `UpErr = some msg` means it returns an error. -/

/-- `Migration` (migration.go:22-26). -/
structure Migration where
  Description : String
  FuncName : String
  UpErr : Option String
  version : String
deriving DecidableEq, Repr

/-- `NewMigration` (migration.go:28-35): stores the description and body
and computes the version from them. -/
def NewMigration (description funcName : String) (upErr : Option String) : Migration :=
  { Description := description, FuncName := funcName, UpErr := upErr,
    version := computeVersion funcName description }

/-- `Migration.Version` (migration.go:37-39). -/
def Migration.Version (m : Migration) : String := m.version

/-- `MigrationRecord` (migration.go:52-57); `AppliedAt` is an abstract
tick of the wall clock. -/
structure MigrationRecord where
  Version : String
  Description : String
  AppliedAt : Nat
  FuncName : String
deriving DecidableEq, Repr

/-! ## The tracking world

`map[string]bool` is embedded as an association list updated in place;
reads default to `false` exactly like a Go map read. -/

/-- Read of a Go `map[string]bool` (missing key reads as `false`). -/
def mapGet (m : List (String × Bool)) (k : String) : Bool :=
  match m.find? (fun p => p.1 == k) with
  | some p => p.2
  | none => false

/-- Write `m[k] = v` of a Go `map[string]bool`: replace the binding if
present, otherwise add it. -/
def mapInsert : List (String × Bool) → String → Bool → List (String × Bool)
  | [], k, v => [(k, v)]
  | p :: rest, k, v => if p.1 == k then (k, v) :: rest else p :: mapInsert rest k v

/-- The tracking file at `FilePath`.  `stored m` stands for a file
holding the JSON serialization of the mapping `m` (as
`writeVersionsToFile` produces; `stored []` also covers a file holding
`null`), `malformed` for a file whose content `encoding/json` rejects;
the byte-level decoder below refines this classification for C8. -/
inductive FileContent
  | missing
  | stored (m : List (String × Bool))
  | malformed
deriving DecidableEq, Repr

/-- The state owned by the two tracking backends: the tracking file, the
documents of the `.elasticmate_migrations` index (in indexing order),
whether that index exists, and an abstract clock for `time.Now()`.
Transport-level failures of the Elasticsearch client (the spec's
ConnectionError) are outside this model: index operations reach the
store. -/
structure World where
  file : FileContent
  esRecords : List MigrationRecord
  esIndexExists : Bool
  clock : Nat
deriving DecidableEq, Repr

/-- `MigrationManager` (migration.go:60-64); the ES client itself is an
external handle and carries no tracked state beyond `World`. -/
structure MigrationManager where
  Migrations : List Migration
  FilePath : String
deriving DecidableEq, Repr

/-- `NewMigrationManager` (migration.go:66-72). -/
def NewMigrationManager (filePath : String) : MigrationManager :=
  { Migrations := [], FilePath := filePath }

/-- `Register` (migration.go:74-76): append to `Migrations`. -/
def Register (mm : MigrationManager) (m : Migration) : MigrationManager :=
  { mm with Migrations := mm.Migrations ++ [m] }

/-- `useTextFile` (migration.go:78-80). -/
def useTextFile (mm : MigrationManager) : Bool := mm.FilePath != ""

/-- `readVersionsFromFile` (migration.go:83-116), at the level of the
decoded mapping: no path configured is an error, a missing file is the
empty mapping, a well-formed file is its mapping (a `null` file is the
empty mapping, covered by `stored []`), and undecodable content is the
wrapped decode error. -/
def readVersionsFromFile (mm : MigrationManager) (w : World) :
    Except String (List (String × Bool)) :=
  if useTextFile mm = false then .error "text file path not provided"
  else
    match w.file with
    | .missing => .ok []
    | .stored m => .ok m
    | .malformed => .error "failed to decode version file"

/-- `writeVersionsToFile` (migration.go:119-136): overwrite the file
with the serialization of the full mapping. -/
def writeVersionsToFile (mm : MigrationManager) (w : World) (versions : List (String × Bool)) :
    Except String World :=
  if useTextFile mm = false then .error "text file path not provided"
  else .ok { w with file := .stored versions }

/-- `ensureMigrationsIndex` (migration.go:138-173): no-op for the file
backend, otherwise check-then-create of `.elasticmate_migrations`. -/
def ensureMigrationsIndex (mm : MigrationManager) (w : World) : World :=
  if useTextFile mm then w
  else { w with esIndexExists := true }

/-- `GetAppliedMigrations` (migration.go:175-218).  The indexed backend
ensures the index and then runs a `match_all` search with
`WithSize(1000)`: Elasticsearch returns at most the first 1000
documents, and the applied map is built from exactly those hits. -/
def GetAppliedMigrations (mm : MigrationManager) (w : World) :
    Except String (List (String × Bool) × World) :=
  if useTextFile mm then
    match readVersionsFromFile mm w with
    | .error e => .error e
    | .ok m => .ok (m, w)
  else
    let w1 := ensureMigrationsIndex mm w
    let hits := w1.esRecords.take 1000
    .ok (hits.foldl (fun acc r => mapInsert acc r.Version true) [], w1)

/-- `RecordMigration` (migration.go:220-257): file backend re-reads the
mapping, marks the version and rewrites the file; indexed backend
indexes one fresh `MigrationRecord` with refresh (immediately visible,
appended to the collection). -/
def RecordMigration (mm : MigrationManager) (w : World) (m : Migration) :
    Except String World :=
  if useTextFile mm then
    match readVersionsFromFile mm w with
    | .error e => .error e
    | .ok applied => writeVersionsToFile mm w (mapInsert applied m.Version true)
  else
    let record : MigrationRecord :=
      { Version := m.Version, Description := m.Description,
        AppliedAt := w.clock, FuncName := m.FuncName }
    .ok { w with esRecords := w.esRecords ++ [record], clock := w.clock + 1 }

/-! ## The run loop (migration.go:259-290) -/

/-- The observable per-migration events of one run: the body was invoked
("Applying migration ..."), the application was recorded, or the
migration was reported as skipped. -/
inductive RunEvent
  | invoked (version : String)
  | recorded (version : String)
  | skipped (version : String)
deriving DecidableEq, Repr

/-- The errors `RunMigrations` returns: the initial applied-set query
failed, a body failed (`"failed to apply migration %s: %w"`, carrying
the failing version), or recording failed. -/
inductive RunError
  | getAppliedFailed (msg : String)
  | applyFailed (version : String) (msg : String)
  | recordFailed (msg : String)
deriving DecidableEq, Repr

/-- The loop of migration.go:271-287 over the (already sorted) slice:
skip a migration whose version is in the `applied` map read at the start
of the run (the map is never updated during the loop), otherwise invoke
the body and record the migration, aborting on the first failure. -/
def runLoop (mm : MigrationManager) (applied : List (String × Bool)) :
    World → List Migration → Except RunError Unit × World × List RunEvent
  | w, [] => (.ok (), w, [])
  | w, m :: rest =>
    if mapGet applied m.Version then
      let out := runLoop mm applied w rest
      (out.1, out.2.1, .skipped m.Version :: out.2.2)
    else
      match m.UpErr with
      | some msg => (.error (.applyFailed m.Version msg), w, [.invoked m.Version])
      | none =>
        match RecordMigration mm w m with
        | .error e => (.error (.recordFailed e), w, [.invoked m.Version])
        | .ok w1 =>
          let out := runLoop mm applied w1 rest
          (out.1, out.2.1, .invoked m.Version :: .recorded m.Version :: out.2.2)

deriving instance DecidableEq for Except

/-- Everything observable about one `RunMigrations` call: the returned
error, the final tracking state, the Manager's `Migrations` slice after
the call (the sort happens in place), and the event trace. -/
structure RunResult where
  result : Except RunError Unit
  world : World
  migrations : List Migration
  trace : List RunEvent
deriving DecidableEq, Repr

/-- Go's `<` on strings: lexicographic comparison of the UTF-8 bytes. -/
def bytesLtb : List Nat → List Nat → Bool
  | [], [] => false
  | [], _ :: _ => true
  | _ :: _, [] => false
  | a :: as, b :: bs => Nat.blt a b || (a == b && bytesLtb as bs)

/-- `a < b` for Go strings. -/
def goStrLt (a b : String) : Bool := bytesLtb (strBytes a) (strBytes b)

/-- Sortedness after `sort.Slice`: no later element is `less` than an
earlier one. -/
def versionSorted (r : List Migration) : Prop :=
  r.Pairwise (fun a b => goStrLt b.Version a.Version = false)

instance versionSortedDecidable (r : List Migration) : Decidable (versionSorted r) := by
  unfold versionSorted
  infer_instance

/-- The documented contract of `sort.Slice(mm.Migrations, less)` with
`less i j = Migrations[i].Version() < Migrations[j].Version()`
(migration.go:266-268): the slice becomes some permutation of itself
that is sorted by version.  `sort.Slice` is documented as NOT
guaranteed to be stable, so every such permutation is an allowed
outcome. -/
def SortSliceResult (l r : List Migration) : Prop :=
  r.Perm l ∧ versionSorted r

/-- `RunMigrations` (migration.go:259-290) given the sorted slice the
in-place `sort.Slice` produced: query the applied set (aborting before
the sort on failure), then run the loop over the sorted slice. -/
def RunMigrationsWith (mm : MigrationManager) (w : World) (sorted : List Migration) :
    RunResult :=
  match GetAppliedMigrations mm w with
  | .error e => ⟨.error (.getAppliedFailed e), w, mm.Migrations, []⟩
  | .ok (applied, w1) =>
    let out := runLoop mm applied w1 sorted
    ⟨out.1, out.2.1, sorted, out.2.2⟩

/-- The behaviours of one `RunMigrations` call: one outcome per sorted
permutation `sort.Slice` may produce. -/
def RunMigrations (mm : MigrationManager) (w : World) (out : RunResult) : Prop :=
  ∃ sorted, SortSliceResult mm.Migrations sorted ∧ out = RunMigrationsWith mm w sorted

/-- The versions whose bodies a trace invoked, in order. -/
def invokedVersions (tr : List RunEvent) : List String :=
  tr.filterMap (fun e => match e with | .invoked v => some v | _ => none)

/-- The versions a trace recorded, in order. -/
def recordedVersions (tr : List RunEvent) : List String :=
  tr.filterMap (fun e => match e with | .recorded v => some v | _ => none)

/-- Whether version `v` is durably marked applied in the backend the
manager uses: present with mark `true` in the tracking file's mapping,
or carried by some document of the tracking index. -/
def recordedInWorld (mm : MigrationManager) (w : World) (v : String) : Bool :=
  if useTextFile mm then
    match w.file with
    | .stored m => mapGet m v
    | _ => false
  else
    w.esRecords.any (fun r => r.Version == v)

/-! ## Byte-level tracking-file reads (migration.go:83-116)

`readVersionsFromFile` above works on the already classified
`FileContent`; for C8 the classification itself matters, so here the
file is raw text and `json.NewDecoder(file).Decode(&versions)` with
`versions : map[string]bool` is embedded as an executable decoder.
The decoder mirrors `encoding/json` on this target type: leading
whitespace then no input at all is the bare `io.EOF` (message `"EOF"`);
`null` leaves the map `nil`; an object must map string keys to the
literals `true`/`false` (later duplicates win); a top-level value of any
other type, a truncated value, or a stray character is an error whose
message is never `"EOF"`.  String literals follow the scanner and
`unquoteBytes` of encoding/json: raw control characters are rejected,
the escapes `\"` `\\` `\/` `\b` `\f` `\n` `\r` `\t` `\uXXXX` are
decoded (surrogate pairs combine, unpairable surrogates become U+FFFD),
and any other escape is rejected.  A `json.Decoder` never produces the
`"unexpected end of JSON input"` message (that message belongs to
`json.Unmarshal`), and neither does this decoder. -/

/-- `'\x7b'`, the opening brace. -/
def lbraceChar : Char := Char.ofNat 123

/-- `'\x7d'`, the closing brace. -/
def rbraceChar : Char := Char.ofNat 125

/-- `'"'`. -/
def quoteChar : Char := Char.ofNat 34

/-- `'\\'`. -/
def backslashChar : Char := Char.ofNat 92

/-- JSON insignificant whitespace. -/
def wsChar (c : Char) : Bool := c == ' ' || c == '\t' || c == '\n' || c == '\r'

/-- Drop leading JSON whitespace. -/
def skipWs : List Char → List Char
  | [] => []
  | c :: rest => if wsChar c then skipWs rest else c :: rest

/-- The value of one hexadecimal digit of a `\u` escape (`getu4` accepts
both letter cases), or `none` for any other character. -/
def hexVal (c : Char) : Option Nat :=
  let n := c.toNat
  if 48 ≤ n && n ≤ 57 then some (n - 48)
  else if 97 ≤ n && n ≤ 102 then some (n - 87)
  else if 65 ≤ n && n ≤ 70 then some (n - 55)
  else none

/-- `getu4` of encoding/json, after the `\u` prefix: the four-hex-digit
UTF-16 code unit and the remaining input. -/
def getu4 : List Char → Option (Nat × List Char)
  | c1 :: c2 :: c3 :: c4 :: rest =>
    match hexVal c1, hexVal c2, hexVal c3, hexVal c4 with
    | some a, some b, some c, some d => some ((((a * 16 + b) * 16 + c) * 16 + d), rest)
    | _, _, _, _ => none
  | _ => none

/-- A UTF-16 code unit in the surrogate range. -/
def isSurrogateCU (n : Nat) : Bool := Nat.ble 55296 n && Nat.blt n 57344

/-- A UTF-16 high-surrogate code unit. -/
def isHighSurrogateCU (n : Nat) : Bool := Nat.ble 55296 n && Nat.blt n 56320

/-- A UTF-16 low-surrogate code unit. -/
def isLowSurrogateCU (n : Nat) : Bool := Nat.ble 56320 n && Nat.blt n 57344

/-- The character a one-character escape decodes to: `\"` `\\` `\/`
`\b` `\f` `\n` `\r` `\t` (exactly the set encoding/json's scanner
accepts besides `\u`), `none` otherwise. -/
def decodeEscapeChar (e : Char) : Option Char :=
  if e == quoteChar || e == backslashChar || e == '/' then some e
  else if e == 'b' then some (Char.ofNat 8)
  else if e == 'f' then some (Char.ofNat 12)
  else if e == 'n' then some (Char.ofNat 10)
  else if e == 'r' then some (Char.ofNat 13)
  else if e == 't' then some (Char.ofNat 9)
  else none

/-- Decode one `\u` escape, the `\u` prefix already consumed: four hex
digits are required; a high surrogate combines with an immediately
following `\uXXXX` low surrogate into one scalar value, and any
unpairable surrogate becomes U+FFFD with parsing resuming right after
the first escape — exactly `unquoteBytes` of encoding/json. -/
def decodeUEscape (rest2 : List Char) : Except String (Char × List Char) :=
  match rest2 with
  | c1 :: c2 :: c3 :: c4 :: rest3 =>
    match hexVal c1, hexVal c2, hexVal c3, hexVal c4 with
    | some h1, some h2, some h3, some h4 =>
      if isSurrogateCU ((((h1 * 16 + h2) * 16 + h3) * 16 + h4)) then
        match rest3 with
        | b2 :: u2 :: rest4 =>
          if b2 == backslashChar && u2 == 'u' then
            match getu4 rest4 with
            | some (r2, rest5) =>
              if isHighSurrogateCU ((((h1 * 16 + h2) * 16 + h3) * 16 + h4)) &&
                  isLowSurrogateCU r2 then
                .ok (Char.ofNat
                  (65536 + ((((h1 * 16 + h2) * 16 + h3) * 16 + h4) - 55296) * 1024 +
                    (r2 - 56320)), rest5)
              else .ok (Char.ofNat 65533, rest3)
            | none => .ok (Char.ofNat 65533, rest3)
          else .ok (Char.ofNat 65533, rest3)
        | _ => .ok (Char.ofNat 65533, rest3)
      else .ok (Char.ofNat ((((h1 * 16 + h2) * 16 + h3) * 16 + h4)), rest3)
    | _, _, _, _ => .error "invalid character in \\u hexadecimal character escape"
  | _ => .error "unexpected EOF"

/-- Parse the remainder of a JSON string literal (the opening quote
already consumed), returning the decoded key and the rest of the input,
mirroring encoding/json: a raw control character (below 0x20) is
rejected (`"invalid character ... in string literal"`); the escapes
`\"` `\\` `\/` `\b` `\f` `\n` `\r` `\t` `\uXXXX` decode as
`decodeEscapeChar` and `decodeUEscape` do; any other escape character is
rejected.  The fuel only bounds the recursion; every step consumes
input, so it never runs out before the input does. -/
def parseJsonString : Nat → List Char → List Char → Except String (String × List Char)
  | 0, _, _ => .error "unexpected EOF"
  | _ + 1, [], _ => .error "unexpected EOF"
  | fuel + 1, c :: rest, acc =>
    if c == quoteChar then .ok (String.mk acc.reverse, rest)
    else if c == backslashChar then
      match rest with
      | [] => .error "unexpected EOF"
      | e :: rest2 =>
        match decodeEscapeChar e with
        | some d => parseJsonString fuel rest2 (d :: acc)
        | none =>
          if e == 'u' then
            match decodeUEscape rest2 with
            | .ok (d, rest3) => parseJsonString fuel rest3 (d :: acc)
            | .error msg => .error msg
          else .error "invalid character in string escape code"
    else if Nat.blt c.toNat 32 then .error "invalid character in string literal"
    else parseJsonString fuel rest (c :: acc)

/-- Parse a JSON boolean literal, the only value type `map[string]bool`
accepts for its entries. -/
def parsePrimBool : List Char → Except String (Bool × List Char)
  | 't' :: 'r' :: 'u' :: 'e' :: rest => .ok (true, rest)
  | 'f' :: 'a' :: 'l' :: 's' :: 'e' :: rest => .ok (false, rest)
  | [] => .error "unexpected EOF"
  | _ => .error "json: cannot unmarshal value into Go value of type bool"

/-- Parse the members of a JSON object (a `"key": bool` pair is expected
next), accumulating into the mapping. -/
def parseMembers : Nat → List (String × Bool) → List Char → Except String (List (String × Bool) × List Char)
  | 0, _, _ => .error "unexpected EOF"
  | fuel + 1, acc, input =>
    match skipWs input with
    | [] => .error "unexpected EOF"
    | c :: rest =>
      if c == quoteChar then
        match parseJsonString (rest.length + 1) rest [] with
        | .error e => .error e
        | .ok (key, rest1) =>
          match skipWs rest1 with
          | [] => .error "unexpected EOF"
          | c2 :: rest2 =>
            if c2 == ':' then
              match parsePrimBool (skipWs rest2) with
              | .error e => .error e
              | .ok (b, rest3) =>
                match skipWs rest3 with
                | [] => .error "unexpected EOF"
                | c3 :: rest4 =>
                  if c3 == ',' then parseMembers fuel (mapInsert acc key b) rest4
                  else if c3 == rbraceChar then .ok (mapInsert acc key b, rest4)
                  else .error "invalid character after object key-value pair"
            else .error "invalid character after object key"
      else .error "invalid character looking for beginning of object key string"

/-- One `Decode(&versions)` call of `json.NewDecoder` on the whole file
content: `ok none` is a decoded `null` (the map stays `nil`), `ok (some
m)` a decoded object. -/
def decodeVersionsDoc (content : String) : Except String (Option (List (String × Bool))) :=
  match skipWs content.data with
  | [] => .error "EOF"
  | c :: rest =>
    if c == lbraceChar then
      match skipWs rest with
      | [] => .error "unexpected EOF"
      | c2 :: rest2 =>
        if c2 == rbraceChar then .ok (some [])
        else
          match parseMembers (rest.length + 1) [] (c2 :: rest2) with
          | .error e => .error e
          | .ok (m, _) => .ok (some m)
    else if c == 'n' then
      match rest with
      | 'u' :: 'l' :: 'l' :: _ => .ok none
      | _ => .error "invalid character in literal null"
    else .error "json: cannot unmarshal value into Go value of type map of string to bool"

example : decodeVersionsDoc "" = .error "EOF" := by rfl
example : decodeVersionsDoc " \n\t " = .error "EOF" := by rfl
example : decodeVersionsDoc "null" = .ok none := by rfl
example : decodeVersionsDoc "\x7b\x7d" = .ok (some []) := by rfl
example : decodeVersionsDoc " \x7b \"54f03a2b\": true , \"d6320a52\": false \x7d " =
    .ok (some [("54f03a2b", true), ("d6320a52", false)]) := by rfl
example : decodeVersionsDoc "\x7b" = .error "unexpected EOF" := by rfl
example : decodeVersionsDoc "42" =
    .error "json: cannot unmarshal value into Go value of type map of string to bool" := by rfl
example : decodeVersionsDoc "\x7b\"a\": 1\x7d" =
    .error "json: cannot unmarshal value into Go value of type bool" := by rfl
-- A raw control character inside a string literal is malformed content.
example : decodeVersionsDoc "\x7b\"a\tb\": true\x7d" =
    .error "invalid character in string literal" := by rfl
-- An unknown escape is malformed content.
example : decodeVersionsDoc "\x7b\"a\\qb\": true\x7d" =
    .error "invalid character in string escape code" := by rfl
-- Valid escapes decode as encoding/json does.
example : decodeVersionsDoc "\x7b\"a\\tb\\n\": true\x7d" =
    .ok (some [("a\tb\n", true)]) := by rfl
example : decodeVersionsDoc "\x7b\"\\u0041\\/\": true\x7d" =
    .ok (some [("A/", true)]) := by rfl
-- A surrogate pair combines into one scalar value.
example : decodeVersionsDoc "\x7b\"\\uD834\\uDD1E\": true\x7d" =
    .ok (some [(String.mk [Char.ofNat 119070], true)]) := by rfl
-- An unpairable surrogate becomes U+FFFD, as in unquoteBytes.
example : decodeVersionsDoc "\x7b\"\\uD800x\": true\x7d" =
    .ok (some [(String.mk [Char.ofNat 65533, 'x'], true)]) := by rfl
-- A truncated \u escape is an unexpected end of input.
example : decodeVersionsDoc "\x7b\"\\u00" = .error "unexpected EOF" := by rfl
example : decodeVersionsDoc "\x7b\"\\uZZZZ\": true\x7d" =
    .error "invalid character in \\u hexadecimal character escape" := by rfl

/-! The decoder's bare `"EOF"` error arises exactly on whitespace-empty
content: every other failure carries a different message, matching
`json.Decoder`, whose `io.EOF` surfaces only when no value begins. -/

theorem decodeUEscape_not_EOF (rest2 : List Char) (msg : String)
    (h : decodeUEscape rest2 = .error msg) : msg ≠ "EOF" := by
  unfold decodeUEscape at h
  repeat' split at h
  all_goals (cases h <;> decide)

theorem parseJsonString_not_EOF :
    ∀ (fuel : Nat) (input acc : List Char) (e : String),
      parseJsonString fuel input acc = .error e → e ≠ "EOF" := by
  intro fuel
  induction fuel with
  | zero =>
    intro input acc e h
    rw [parseJsonString] at h
    cases h
    decide
  | succ fuel ih =>
    intro input acc e h
    cases input with
    | nil =>
      rw [parseJsonString] at h
      cases h
      decide
    | cons c rest =>
      cases rest with
      | nil =>
        rw [parseJsonString] at h
        split at h
        · cases h
        · split at h
          · cases h
            decide
          · split at h
            · cases h
              decide
            · exact ih _ _ e h
      | cons e2 rest2 =>
        rw [parseJsonString] at h
        split at h
        · cases h
        · split at h
          · split at h
            · exact ih _ _ e h
            · split at h
              · split at h
                · exact ih _ _ e h
                · rename_i msg heq
                  injection h with h2
                  subst h2
                  exact decodeUEscape_not_EOF _ _ heq
              · cases h
                decide
          · split at h
            · cases h
              decide
            · exact ih _ _ e h

theorem parsePrimBool_not_EOF (input : List Char) (e : String)
    (h : parsePrimBool input = .error e) : e ≠ "EOF" := by
  unfold parsePrimBool at h
  split at h <;> (try cases h) <;> decide

theorem parseMembers_not_EOF :
    ∀ (fuel : Nat) (acc : List (String × Bool)) (input : List Char) (e : String),
      parseMembers fuel acc input = .error e → e ≠ "EOF" := by
  intro fuel
  induction fuel with
  | zero =>
    intro acc input e h
    rw [parseMembers] at h
    cases h
    decide
  | succ fuel ih =>
    intro acc input e h
    rw [parseMembers] at h
    split at h
    · cases h
      decide
    · split at h
      · split at h
        · rename_i e2 heq
          injection h with h2
          subst h2
          exact parseJsonString_not_EOF _ _ _ _ heq
        · split at h
          · cases h
            decide
          · split at h
            · split at h
              · rename_i e2 heq
                injection h with h2
                subst h2
                exact parsePrimBool_not_EOF _ _ heq
              · split at h
                · cases h
                  decide
                · split at h
                  · exact ih _ _ e h
                  · split at h
                    · cases h
                    · cases h
                      decide
            · cases h
              decide
      · cases h
        decide

/-- The whole-document decoder reports the bare `"EOF"` exactly when the
content is empty up to whitespace — so migration.go's "empty or
malformed-empty" classification is precisely the whitespace-empty
file. -/
theorem decodeVersionsDoc_EOF_iff (content : String) :
    decodeVersionsDoc content = .error "EOF" ↔ skipWs content.data = [] := by
  constructor
  · intro h
    rw [decodeVersionsDoc] at h
    split at h
    · rename_i heq
      exact heq
    · exfalso
      split at h
      · split at h
        · simp at h
        · split at h
          · cases h
          · split at h
            · rename_i e2 heq2
              injection h with h2
              exact parseMembers_not_EOF _ _ _ _ heq2 h2
            · cases h
      · split at h
        · split at h
          · cases h
          · simp at h
        · simp at h
  · intro h
    rw [decodeVersionsDoc, h]

/-! ## Map and tracking-store lemmas -/

theorem mapGet_nil (k : String) : mapGet [] k = false := rfl

theorem mapGet_cons (p : String × Bool) (t : List (String × Bool)) (k : String) :
    mapGet (p :: t) k = if p.1 == k then p.2 else mapGet t k := by
  cases h : p.1 == k <;> simp [mapGet, List.find?, h]

theorem mapGet_mapInsert_self (m : List (String × Bool)) (k : String) (v : Bool) :
    mapGet (mapInsert m k v) k = v := by
  induction m with
  | nil => simp [mapInsert, mapGet_cons]
  | cons p t ih =>
    rw [mapInsert]
    cases h : p.1 == k with
    | true => simp [mapGet_cons]
    | false => simp [mapGet_cons, h, ih]

theorem mapGet_mapInsert_ne (m : List (String × Bool)) (k k2 : String) (v : Bool)
    (h : k2 ≠ k) : mapGet (mapInsert m k v) k2 = mapGet m k2 := by
  induction m with
  | nil => simp [mapInsert, mapGet_cons, mapGet_nil, Ne.symm h]
  | cons p t ih =>
    rw [mapInsert]
    cases hp : p.1 == k with
    | true =>
      have hp1 : p.1 = k := by simpa using hp
      simp [mapGet_cons, hp1, Ne.symm h]
    | false => simp [mapGet_cons, ih]

/-- The applied map `GetAppliedMigrations` builds from search hits holds
exactly the versions of those hits (plus whatever was already in the
accumulator). -/
theorem mapGet_foldl_insertTrue (l : List MigrationRecord) (init : List (String × Bool))
    (v : String) :
    mapGet (l.foldl (fun acc r => mapInsert acc r.Version true) init) v =
      (mapGet init v || l.any (fun r => r.Version == v)) := by
  induction l generalizing init with
  | nil => simp
  | cons r t ih =>
    simp only [List.foldl_cons, List.any_cons]
    rw [ih]
    by_cases h : r.Version = v
    · subst h
      rw [mapGet_mapInsert_self]
      simp
    · have hb : (r.Version == v) = false := beq_eq_false_iff_ne.mpr h
      rw [mapGet_mapInsert_ne _ _ _ _ (Ne.symm h), hb]
      simp

/-- Two worlds agreeing on the tracking file and the tracking index
record the same versions. -/
theorem recordedInWorld_congr (mm : MigrationManager) (w1 w2 : World)
    (hf : w1.file = w2.file) (he : w1.esRecords = w2.esRecords) :
    recordedInWorld mm w1 = recordedInWorld mm w2 := by
  funext v
  simp [recordedInWorld, hf, he]

/-- Recording cannot fail as long as the tracking file (when one is in
use) is not malformed — the only state-dependent failure of
`RecordMigration`. -/
def RecordSafe (mm : MigrationManager) (w : World) : Prop :=
  useTextFile mm = true → w.file ≠ FileContent.malformed

theorem recordedInWorld_es (mm : MigrationManager) (w : World) (v : String)
    (hu : useTextFile mm = false) :
    recordedInWorld mm w v = w.esRecords.any (fun r => r.Version == v) := by
  simp [recordedInWorld, hu]

theorem recordedInWorld_missing (mm : MigrationManager) (w : World) (v : String)
    (hu : useTextFile mm = true) (hf : w.file = FileContent.missing) :
    recordedInWorld mm w v = false := by
  simp [recordedInWorld, hu, hf]

theorem recordedInWorld_stored (mm : MigrationManager) (w : World) (v : String)
    (M : List (String × Bool)) (hu : useTextFile mm = true)
    (hf : w.file = FileContent.stored M) :
    recordedInWorld mm w v = mapGet M v := by
  simp [recordedInWorld, hu, hf]

theorem RecordMigration_es (mm : MigrationManager) (w : World) (m : Migration)
    (hu : useTextFile mm = false) :
    RecordMigration mm w m = .ok { w with
      esRecords := w.esRecords ++ [⟨m.Version, m.Description, w.clock, m.FuncName⟩],
      clock := w.clock + 1 } := by
  simp [RecordMigration, hu]

theorem RecordMigration_missing (mm : MigrationManager) (w : World) (m : Migration)
    (hu : useTextFile mm = true) (hf : w.file = FileContent.missing) :
    RecordMigration mm w m = .ok { w with file := .stored (mapInsert [] m.Version true) } := by
  simp [RecordMigration, hu, readVersionsFromFile, writeVersionsToFile, hf]

theorem RecordMigration_stored (mm : MigrationManager) (w : World) (m : Migration)
    (M : List (String × Bool)) (hu : useTextFile mm = true)
    (hf : w.file = FileContent.stored M) :
    RecordMigration mm w m = .ok { w with file := .stored (mapInsert M m.Version true) } := by
  simp [RecordMigration, hu, readVersionsFromFile, writeVersionsToFile, hf]

theorem RecordMigration_malformed (mm : MigrationManager) (w : World) (m : Migration)
    (hu : useTextFile mm = true) (hf : w.file = FileContent.malformed) :
    RecordMigration mm w m = .error "failed to decode version file" := by
  simp [RecordMigration, hu, readVersionsFromFile, hf]

/-- A successful `RecordMigration` marks the migration's version applied,
keeps every previously recorded version applied, and keeps the world
record-safe. -/
theorem RecordMigration_spec (mm : MigrationManager) (w : World) (m : Migration) (w1 : World)
    (h : RecordMigration mm w m = .ok w1) :
    recordedInWorld mm w1 m.Version = true ∧
    (∀ v, recordedInWorld mm w v = true → recordedInWorld mm w1 v = true) ∧
    RecordSafe mm w1 := by
  cases hu : useTextFile mm with
  | false =>
    rw [RecordMigration_es mm w m hu] at h
    cases h
    refine ⟨?_, ?_, ?_⟩
    · simp [recordedInWorld_es _ _ _ hu]
    · intro v hv
      rw [recordedInWorld_es _ _ _ hu] at hv ⊢
      simp only [List.any_append, hv, Bool.true_or]
    · intro hc
      rw [hu] at hc
      cases hc
  | true =>
    cases hf : w.file with
    | malformed =>
      rw [RecordMigration_malformed mm w m hu hf] at h
      cases h
    | missing =>
      rw [RecordMigration_missing mm w m hu hf] at h
      cases h
      refine ⟨?_, ?_, ?_⟩
      · rw [recordedInWorld_stored _ _ _ _ hu rfl, mapGet_mapInsert_self]
      · intro v hv
        rw [recordedInWorld_missing _ _ _ hu hf] at hv
        cases hv
      · intro _
        simp
    | stored M =>
      rw [RecordMigration_stored mm w m M hu hf] at h
      cases h
      refine ⟨?_, ?_, ?_⟩
      · rw [recordedInWorld_stored _ _ _ _ hu rfl, mapGet_mapInsert_self]
      · intro v hv
        rw [recordedInWorld_stored _ _ _ M hu hf] at hv
        rw [recordedInWorld_stored _ _ _ _ hu rfl]
        by_cases hv2 : v = m.Version
        · subst hv2
          rw [mapGet_mapInsert_self]
        · rw [mapGet_mapInsert_ne _ _ _ _ hv2]
          exact hv
      · intro _
        simp

/-- From a record-safe world, `RecordMigration` succeeds. -/
theorem RecordMigration_ok (mm : MigrationManager) (w : World) (m : Migration)
    (h : RecordSafe mm w) : ∃ w1, RecordMigration mm w m = .ok w1 := by
  cases hu : useTextFile mm with
  | false => exact ⟨_, RecordMigration_es mm w m hu⟩
  | true =>
    cases hf : w.file with
    | missing => exact ⟨_, RecordMigration_missing mm w m hu hf⟩
    | stored M => exact ⟨_, RecordMigration_stored mm w m M hu hf⟩
    | malformed => exact absurd hf (h hu)

/-! ## `GetAppliedMigrations` lemmas -/

theorem GetApplied_missing (mm : MigrationManager) (w : World)
    (hu : useTextFile mm = true) (hf : w.file = FileContent.missing) :
    GetAppliedMigrations mm w = .ok ([], w) := by
  simp [GetAppliedMigrations, readVersionsFromFile, hu, hf]

theorem GetApplied_stored (mm : MigrationManager) (w : World) (M : List (String × Bool))
    (hu : useTextFile mm = true) (hf : w.file = FileContent.stored M) :
    GetAppliedMigrations mm w = .ok (M, w) := by
  simp [GetAppliedMigrations, readVersionsFromFile, hu, hf]

theorem GetApplied_malformed (mm : MigrationManager) (w : World)
    (hu : useTextFile mm = true) (hf : w.file = FileContent.malformed) :
    GetAppliedMigrations mm w = .error "failed to decode version file" := by
  simp [GetAppliedMigrations, readVersionsFromFile, hu, hf]

theorem GetApplied_es (mm : MigrationManager) (w : World) (hu : useTextFile mm = false) :
    GetAppliedMigrations mm w =
      .ok ((w.esRecords.take 1000).foldl (fun acc r => mapInsert acc r.Version true) [],
           { w with esIndexExists := true }) := by
  simp [GetAppliedMigrations, ensureMigrationsIndex, hu]

/-- What a successful applied-set query guarantees: only the index-exists
flag can change; the world stays record-safe; every version in the map
is recorded in the backend; and — when the file backend is used or the
tracking index holds at most 1000 documents (the fixed search page
size) — every recorded version is in the map. -/
theorem GetApplied_spec (mm : MigrationManager) (w : World)
    (applied : List (String × Bool)) (w1 : World)
    (h : GetAppliedMigrations mm w = .ok (applied, w1)) :
    w1.file = w.file ∧ w1.esRecords = w.esRecords ∧ RecordSafe mm w1 ∧
    (∀ v, mapGet applied v = true → recordedInWorld mm w1 v = true) ∧
    ((useTextFile mm = true ∨ w.esRecords.length ≤ 1000) →
      ∀ v, recordedInWorld mm w v = true → mapGet applied v = true) := by
  cases hu : useTextFile mm with
  | true =>
    rcases hf : w.file with _ | M | _
    · rw [GetApplied_missing mm w hu hf] at h
      cases h
      refine ⟨hf, rfl, ?_, ?_, ?_⟩
      · intro hut
        rw [hf]
        simp
      · intro v hv
        simp [mapGet_nil] at hv
      · intro _ v hv
        rw [recordedInWorld_missing mm w v hu hf] at hv
        cases hv
    · rw [GetApplied_stored mm w M hu hf] at h
      cases h
      refine ⟨hf, rfl, ?_, ?_, ?_⟩
      · intro hut
        rw [hf]
        simp
      · intro v hv
        rw [recordedInWorld_stored mm w v applied hu hf]
        exact hv
      · intro _ v hv
        rw [recordedInWorld_stored mm w v applied hu hf] at hv
        exact hv
    · rw [GetApplied_malformed mm w hu hf] at h
      cases h
  | false =>
    rw [GetApplied_es mm w hu] at h
    cases h
    refine ⟨rfl, rfl, ?_, ?_, ?_⟩
    · intro hut
      rw [hu] at hut
      cases hut
    · intro v hv
      rw [mapGet_foldl_insertTrue, mapGet_nil, Bool.false_or, List.any_eq_true] at hv
      obtain ⟨r, hr, hrv⟩ := hv
      rw [recordedInWorld_es mm _ v hu]
      exact List.any_eq_true.mpr ⟨r, List.take_subset _ _ hr, hrv⟩
    · intro hcap v hv
      rw [recordedInWorld_es mm w v hu] at hv
      rw [mapGet_foldl_insertTrue, mapGet_nil, Bool.false_or]
      rcases hcap with hcap | hcap
      · simp at hcap
      · rw [List.take_of_length_le hcap]
        exact hv

/-! ## Run-loop lemmas -/

theorem invokedVersions_nil : invokedVersions [] = [] := rfl

theorem invokedVersions_skipped (v : String) (tr : List RunEvent) :
    invokedVersions (.skipped v :: tr) = invokedVersions tr := rfl

theorem invokedVersions_recorded (v : String) (tr : List RunEvent) :
    invokedVersions (.recorded v :: tr) = invokedVersions tr := rfl

theorem invokedVersions_invoked (v : String) (tr : List RunEvent) :
    invokedVersions (.invoked v :: tr) = v :: invokedVersions tr := rfl

theorem recordedVersions_nil : recordedVersions [] = [] := rfl

theorem recordedVersions_skipped (v : String) (tr : List RunEvent) :
    recordedVersions (.skipped v :: tr) = recordedVersions tr := rfl

theorem recordedVersions_recorded (v : String) (tr : List RunEvent) :
    recordedVersions (.recorded v :: tr) = v :: recordedVersions tr := rfl

theorem recordedVersions_invoked (v : String) (tr : List RunEvent) :
    recordedVersions (.invoked v :: tr) = recordedVersions tr := rfl

/-- The loop invokes bodies following the order of its input slice: the
invoked versions are a sublist of the slice's versions. -/
theorem runLoop_invoked_sublist (mm : MigrationManager) (applied : List (String × Bool)) :
    ∀ ms w, List.Sublist (invokedVersions (runLoop mm applied w ms).2.2) (ms.map Migration.Version) := by
  intro ms
  induction ms with
  | nil => intro w; simp [runLoop, invokedVersions]
  | cons m rest ih =>
    intro w
    cases hap : mapGet applied m.Version with
    | true =>
      simp only [runLoop, hap, if_true]
      rw [invokedVersions_skipped]
      exact (ih w).cons _
    | false =>
      cases hup : m.UpErr with
      | some msg =>
        simp only [runLoop, hap, Bool.false_eq_true, if_false, hup]
        rw [List.map_cons]
        exact (List.nil_sublist _).cons₂ _
      | none =>
        cases hrec : RecordMigration mm w m with
        | error e =>
          simp only [runLoop, hap, Bool.false_eq_true, if_false, hup, hrec]
          rw [List.map_cons]
          exact (List.nil_sublist _).cons₂ _
        | ok w1 =>
          simp only [runLoop, hap, Bool.false_eq_true, if_false, hup, hrec]
          rw [invokedVersions_invoked, invokedVersions_recorded, List.map_cons]
          exact (ih w1).cons₂ _

/-- The loop records only versions of its input slice, in slice order. -/
theorem runLoop_recorded_sublist (mm : MigrationManager) (applied : List (String × Bool)) :
    ∀ ms w, List.Sublist (recordedVersions (runLoop mm applied w ms).2.2) (ms.map Migration.Version) := by
  intro ms
  induction ms with
  | nil => intro w; simp [runLoop, recordedVersions]
  | cons m rest ih =>
    intro w
    cases hap : mapGet applied m.Version with
    | true =>
      simp only [runLoop, hap, if_true]
      rw [recordedVersions_skipped]
      exact (ih w).cons _
    | false =>
      cases hup : m.UpErr with
      | some msg =>
        simp only [runLoop, hap, Bool.false_eq_true, if_false, hup]
        rw [List.map_cons]
        exact (List.nil_sublist _).cons _
      | none =>
        cases hrec : RecordMigration mm w m with
        | error e =>
          simp only [runLoop, hap, Bool.false_eq_true, if_false, hup, hrec]
          rw [List.map_cons]
          exact (List.nil_sublist _).cons _
        | ok w1 =>
          simp only [runLoop, hap, Bool.false_eq_true, if_false, hup, hrec]
          rw [recordedVersions_invoked, recordedVersions_recorded, List.map_cons]
          exact (ih w1).cons₂ _

/-- Nothing in the loop unrecords a version. -/
theorem runLoop_world_mono (mm : MigrationManager) (applied : List (String × Bool)) :
    ∀ ms w v, recordedInWorld mm w v = true →
      recordedInWorld mm (runLoop mm applied w ms).2.1 v = true := by
  intro ms
  induction ms with
  | nil => intro w v hv; simpa [runLoop] using hv
  | cons m rest ih =>
    intro w v hv
    cases hap : mapGet applied m.Version with
    | true =>
      simp only [runLoop, hap, if_true]
      exact ih w v hv
    | false =>
      cases hup : m.UpErr with
      | some msg =>
        simpa only [runLoop, hap, Bool.false_eq_true, if_false, hup] using hv
      | none =>
        cases hrec : RecordMigration mm w m with
        | error e =>
          simpa only [runLoop, hap, Bool.false_eq_true, if_false, hup, hrec] using hv
        | ok w1 =>
          simp only [runLoop, hap, Bool.false_eq_true, if_false, hup, hrec]
          exact ih w1 v ((RecordMigration_spec mm w m w1 hrec).2.1 v hv)

/-- Every version the trace records is marked applied in the loop's final
world. -/
theorem runLoop_recorded_in_world (mm : MigrationManager) (applied : List (String × Bool)) :
    ∀ ms w v, v ∈ recordedVersions (runLoop mm applied w ms).2.2 →
      recordedInWorld mm (runLoop mm applied w ms).2.1 v = true := by
  intro ms
  induction ms with
  | nil => intro w v hv; simp [runLoop, recordedVersions] at hv
  | cons m rest ih =>
    intro w v hv
    cases hap : mapGet applied m.Version with
    | true =>
      simp only [runLoop, hap, if_true] at hv ⊢
      rw [recordedVersions_skipped] at hv
      exact ih w v hv
    | false =>
      cases hup : m.UpErr with
      | some msg =>
        simp only [runLoop, hap, Bool.false_eq_true, if_false, hup] at hv
        rw [show recordedVersions [RunEvent.invoked m.Version] = [] from rfl] at hv
        cases hv
      | none =>
        cases hrec : RecordMigration mm w m with
        | error e =>
          simp only [runLoop, hap, Bool.false_eq_true, if_false, hup, hrec] at hv
          rw [show recordedVersions [RunEvent.invoked m.Version] = [] from rfl] at hv
          cases hv
        | ok w1 =>
          simp only [runLoop, hap, Bool.false_eq_true, if_false, hup, hrec] at hv ⊢
          rw [recordedVersions_invoked, recordedVersions_recorded] at hv
          rcases List.mem_cons.mp hv with hv | hv
          · subst hv
            exact runLoop_world_mono mm applied rest w1 _
              ((RecordMigration_spec mm w m w1 hrec).1)
          · exact ih w1 v hv

/-- When every version of the slice is already applied, the loop changes
nothing and reports every migration as skipped. -/
theorem runLoop_all_applied (mm : MigrationManager) (applied : List (String × Bool)) :
    ∀ ms w, (∀ m ∈ ms, mapGet applied m.Version = true) →
      runLoop mm applied w ms = (.ok (), w, ms.map (fun m => RunEvent.skipped m.Version)) := by
  intro ms
  induction ms with
  | nil =>
    intro w _
    simp [runLoop]
  | cons m rest ih =>
    intro w h
    have hm := h m (List.mem_cons_self _ _)
    simp only [runLoop, hm, if_true, List.map_cons]
    rw [ih w (fun m2 hm2 => h m2 (List.mem_cons_of_mem _ hm2))]

/-- A successful loop leaves every migration of its slice recorded in
the final world, provided every initially applied version was already
recorded when the loop started. -/
theorem runLoop_ok_recorded (mm : MigrationManager) (applied : List (String × Bool)) :
    ∀ ms w, (∀ v, mapGet applied v = true → recordedInWorld mm w v = true) →
      (runLoop mm applied w ms).1 = .ok () →
      ∀ m2 ∈ ms, recordedInWorld mm (runLoop mm applied w ms).2.1 m2.Version = true := by
  intro ms
  induction ms with
  | nil =>
    intro w _ _ m2 hm2
    simp at hm2
  | cons m rest ih =>
    intro w hap hok m2 hm2
    cases hapm : mapGet applied m.Version with
    | true =>
      simp only [runLoop, hapm, if_true] at hok ⊢
      rcases List.mem_cons.mp hm2 with rfl | hm2
      · exact runLoop_world_mono mm applied rest w _ (hap _ hapm)
      · exact ih w hap hok m2 hm2
    | false =>
      cases hup : m.UpErr with
      | some msg =>
        exact absurd hok (by simp [runLoop, hapm, hup])
      | none =>
        cases hrec : RecordMigration mm w m with
        | error e =>
          exact absurd hok (by simp [runLoop, hapm, hup, hrec])
        | ok w1 =>
          simp only [runLoop, hapm, Bool.false_eq_true, if_false, hup, hrec] at hok ⊢
          obtain ⟨hw1, hmono, _⟩ := RecordMigration_spec mm w m w1 hrec
          rcases List.mem_cons.mp hm2 with rfl | hm2
          · exact runLoop_world_mono mm applied rest w1 _ hw1
          · exact ih w1 (fun v hv => hmono v (hap v hv)) hok m2 hm2

/-- A successful loop has invoked the body of every migration of its
slice whose version was not in the applied map. -/
theorem runLoop_ok_invoked (mm : MigrationManager) (applied : List (String × Bool)) :
    ∀ ms w, (runLoop mm applied w ms).1 = .ok () →
      ∀ m2 ∈ ms, mapGet applied m2.Version = false →
        m2.Version ∈ invokedVersions (runLoop mm applied w ms).2.2 := by
  intro ms
  induction ms with
  | nil =>
    intro w _ m2 hm2
    simp at hm2
  | cons m rest ih =>
    intro w hok m2 hm2 hm2ap
    cases hapm : mapGet applied m.Version with
    | true =>
      simp only [runLoop, hapm, if_true] at hok ⊢
      rw [invokedVersions_skipped]
      rcases List.mem_cons.mp hm2 with rfl | hm2
      · rw [hapm] at hm2ap
        cases hm2ap
      · exact ih w hok m2 hm2 hm2ap
    | false =>
      cases hup : m.UpErr with
      | some msg =>
        exact absurd hok (by simp [runLoop, hapm, hup])
      | none =>
        cases hrec : RecordMigration mm w m with
        | error e =>
          exact absurd hok (by simp [runLoop, hapm, hup, hrec])
        | ok w1 =>
          simp only [runLoop, hapm, Bool.false_eq_true, if_false, hup, hrec] at hok ⊢
          rw [invokedVersions_invoked, invokedVersions_recorded]
          rcases List.mem_cons.mp hm2 with rfl | hm2
          · exact List.mem_cons_self _ _
          · exact List.mem_cons_of_mem _ (ih w1 hok m2 hm2 hm2ap)

/-- Fail-fast (migration.go:275-277): when the loop reaches the first
failing migration it stops with the wrapped error right there — the
result is the error naming that migration's version, the world reached
by processing only the prefix, and the prefix's trace followed by the
failing invocation.  Nothing after the failing migration contributes
anything. -/
theorem runLoop_failFast (mm : MigrationManager) (applied : List (String × Bool)) :
    ∀ pre w mk post msg, RecordSafe mm w →
      (∀ m ∈ pre, mapGet applied m.Version = true ∨ m.UpErr = none) →
      mapGet applied mk.Version = false → mk.UpErr = some msg →
      runLoop mm applied w (pre ++ mk :: post) =
        (.error (.applyFailed mk.Version msg), (runLoop mm applied w pre).2.1,
         (runLoop mm applied w pre).2.2 ++ [.invoked mk.Version]) := by
  intro pre
  induction pre with
  | nil =>
    intro w mk post msg _ _ hmk hup
    simp [runLoop, hmk, hup]
  | cons p pre ih =>
    intro w mk post msg hsafe hpre hmk hup
    cases happ : mapGet applied p.Version with
    | true =>
      simp only [List.cons_append, runLoop, happ, if_true, List.append_eq]
      rw [ih w mk post msg hsafe (fun m hm => hpre m (List.mem_cons_of_mem _ hm)) hmk hup]
    | false =>
      have hpu : p.UpErr = none := by
        rcases hpre p (List.mem_cons_self _ _) with hp | hp
        · rw [happ] at hp
          cases hp
        · exact hp
      obtain ⟨w1, hrec⟩ := RecordMigration_ok mm w p hsafe
      have hsafe1 : RecordSafe mm w1 := (RecordMigration_spec mm w p w1 hrec).2.2
      simp only [List.cons_append, runLoop, happ, Bool.false_eq_true, if_false, hpu, hrec,
        List.append_eq]
      rw [ih w1 mk post msg hsafe1 (fun m hm => hpre m (List.mem_cons_of_mem _ hm)) hmk hup]

/-! ## Injectivity of the hash input

UTF-8 is a prefix-free code: the encoding of one scalar value followed
by arbitrary bytes determines both the scalar value and the remaining
bytes, so `strBytes` is injective and distinct strings feed distinct
byte sequences into SHA-256. -/

theorem utf8CharBytes_ne_nil (a : Nat) : utf8CharBytes a ≠ [] := by
  simp only [utf8CharBytes]
  split_ifs <;> simp

/-- Prefix-freedom of the single-scalar UTF-8 encoder. -/
theorem utf8CharBytes_append_inj (a b : Nat) (r1 r2 : List Nat)
    (h : utf8CharBytes a ++ r1 = utf8CharBytes b ++ r2) : a = b ∧ r1 = r2 := by
  simp only [utf8CharBytes] at h
  split_ifs at h <;>
    simp only [List.cons_append, List.nil_append, List.cons.injEq] at h <;>
    first
    | (obtain ⟨e1, e2, e3, e4, e5⟩ := h; exact ⟨by omega, e5⟩)
    | (obtain ⟨e1, e2, e3, e4⟩ := h; exact ⟨by omega, e4⟩)
    | (obtain ⟨e1, e2, e3⟩ := h; exact ⟨by omega, e3⟩)
    | (obtain ⟨e1, e2⟩ := h; exact ⟨by omega, e2⟩)
    | (obtain ⟨e1, h2⟩ := h; exact absurd e1 (by omega))

theorem utf8List_inj : ∀ l1 l2 : List Char,
    (l1.map (fun c => utf8CharBytes c.toNat)).flatten =
      (l2.map (fun c => utf8CharBytes c.toNat)).flatten → l1 = l2 := by
  intro l1
  induction l1 with
  | nil =>
    intro l2 h
    cases l2 with
    | nil => rfl
    | cons b t2 =>
      simp only [List.map_nil, List.flatten_nil, List.map_cons, List.flatten_cons] at h
      exact absurd (List.append_eq_nil.mp h.symm).1 (utf8CharBytes_ne_nil _)
  | cons a t1 ih =>
    intro l2 h
    cases l2 with
    | nil =>
      simp only [List.map_nil, List.flatten_nil, List.map_cons, List.flatten_cons] at h
      exact absurd (List.append_eq_nil.mp h).1 (utf8CharBytes_ne_nil _)
    | cons b t2 =>
      simp only [List.map_cons, List.flatten_cons] at h
      obtain ⟨hab, ht⟩ := utf8CharBytes_append_inj _ _ _ _ h
      have hab2 : a = b := by
        cases a with
        | mk av ahv =>
          cases b with
          | mk bv bhv =>
            simp only [Char.toNat] at hab
            congr 1
            exact UInt32.toNat.inj hab
      exact hab2 ▸ congrArg (List.cons a) (ih t2 ht)

/-- Distinct strings have distinct UTF-8 byte sequences. -/
theorem strBytes_inj (s1 s2 : String) (h : strBytes s1 = strBytes s2) : s1 = s2 := by
  cases s1 with
  | mk d1 =>
    cases s2 with
    | mk d2 =>
      exact congrArg String.mk (utf8List_inj d1 d2 h)

/-! ## Shape of the version token -/

theorem length_bigEndianBytes (n x : Nat) : (bigEndianBytes n x).length = n := by
  simp [bigEndianBytes]

theorem length_digestBytes (st : Hash8) : (digestBytes st).length = 32 := by
  simp [digestBytes, length_bigEndianBytes]

theorem length_sha256Bytes (msg : List Nat) : (sha256Bytes msg).length = 32 :=
  length_digestBytes _

theorem isHexChar_hexDigit (n : Nat) : isHexChar (hexDigit n) = true := by
  have h : n % 16 < 16 := Nat.mod_lt _ (by decide)
  rw [hexDigit]
  generalize n % 16 = m at h
  interval_cases m <;> decide

theorem length_hexEncode (bytes : List Nat) : (hexEncode bytes).length = 2 * bytes.length := by
  induction bytes with
  | nil => rfl
  | cons b t ih =>
    simp only [hexEncode, List.map_cons, List.flatten_cons, List.length_append,
      List.length_cons, List.length_nil, List.length_map] at ih ⊢
    omega

theorem mem_hexEncode (bytes : List Nat) (c : Char) (h : c ∈ hexEncode bytes) :
    isHexChar c = true := by
  induction bytes with
  | nil => simp [hexEncode] at h
  | cons b t ih =>
    have h2 : c = hexDigit (b / 16) ∨ c = hexDigit b ∨ c ∈ hexEncode t := by
      simpa [hexEncode] using h
    rcases h2 with h2 | h2 | h2
    · rw [h2]; exact isHexChar_hexDigit _
    · rw [h2]; exact isHexChar_hexDigit _
    · exact ih h2

/-! ## The claims -/

/-- **C5.** Version derivation is deterministic and content-addressed:
for every `(identity, description)` pair the version is the first 8 hex
characters of the hex-encoded SHA-256 digest of the identity's bytes
followed by the description's bytes, so it is an 8-hexadecimal-character
token, and recomputing on identical inputs always yields the same
token. -/
theorem C5_version_content_addressed (funcName description : String) :
    (computeVersion funcName description).length = 8 ∧
    (∀ c ∈ (computeVersion funcName description).data, isHexChar c = true) ∧
    computeVersion funcName description =
      String.mk ((hexEncode (sha256Bytes (strBytes funcName ++ strBytes description))).take 8) ∧
    (∀ fn2 d2, fn2 = funcName → d2 = description →
      computeVersion fn2 d2 = computeVersion funcName description) := by
  have h64 : (hexEncode (sha256Bytes (versionHashInput funcName description))).length = 64 := by
    rw [length_hexEncode, length_sha256Bytes]
  refine ⟨?_, ?_, rfl, ?_⟩
  · show (String.mk ((hexEncode (sha256Bytes (versionHashInput funcName description))).take 8)).length = 8
    simp [String.length, List.length_take, h64]
  · intro c hc
    have hc2 : c ∈ (hexEncode (sha256Bytes (versionHashInput funcName description))).take 8 := hc
    exact mem_hexEncode _ _ (List.take_subset _ _ hc2)
  · intro fn2 d2 h1 h2
    rw [h1, h2]

/-- Witness for C5 at the repository's own example migration: the
determinism clause instantiated at a concrete input. -/
theorem C5_version_content_addressed_witness :
    computeVersion "main.createUsersIndex" "Create users index" =
      computeVersion "main.createUsersIndex" "Create users index" :=
  (C5_version_content_addressed "main.createUsersIndex" "Create users index").2.2.2
    "main.createUsersIndex" "Create users index" rfl rfl

/-- **C3 counterexample.** The claimed sensitivity is false: the version
token keeps only 32 bits of the digest, and these two concrete collisions
show a changed description (identity fixed) and a changed identity
(description fixed) each reproducing the same version token. -/
theorem C3_counterexample :
    ¬ (∀ idf d1 d2 : String, d1 ≠ d2 → computeVersion idf d1 ≠ computeVersion idf d2) ∧
    ¬ (∀ id1 id2 df : String, id1 ≠ id2 → computeVersion id1 df ≠ computeVersion id2 df) := by
  constructor
  · intro h
    exact h "main.main.func1" "migration 9210" "migration 19557" (by decide) (by rfl)
  · intro h
    exact h "main.fn32868" "main.fn83507" "Create users index" (by decide) (by rfl)

/-- **C3 (amended).** Holding identity fixed, any change of description
changes the byte sequence fed into the hash, and holding description
fixed, any change of identity changes it as well; the 8-character
truncated tokens themselves may collide (see the counterexample). -/
theorem C3_version_sensitivity_amended (idf d1 d2 id1 id2 df : String) :
    (d1 ≠ d2 → versionHashInput idf d1 ≠ versionHashInput idf d2) ∧
    (id1 ≠ id2 → versionHashInput id1 df ≠ versionHashInput id2 df) := by
  constructor
  · intro hne heq
    exact hne (strBytes_inj _ _ (List.append_cancel_left heq))
  · intro hne heq
    exact hne (strBytes_inj _ _ (List.append_cancel_right heq))

/-- Witness for the amended C3 at concrete inputs. -/
theorem C3_version_sensitivity_amended_witness :
    "Create users index" ≠ "Create orders index" ∧
    versionHashInput "main.f" "Create users index" ≠
      versionHashInput "main.f" "Create orders index" :=
  ⟨by decide,
   (C3_version_sensitivity_amended "main.f" "Create users index" "Create orders index"
      "x" "y" "d").1 (by decide)⟩

/-- **C9.** TrackingState grows monotonically: a successful
`recordApplied` on the file backend persists exactly the previous
mapping with the migration's version marked `true` — the version is
added, every previously recorded version stays marked applied, and no
entry is removed. -/
theorem C9_tracking_monotonic (mm : MigrationManager) (w : World) (m : Migration) (w1 : World)
    (hu : useTextFile mm = true) (h : RecordMigration mm w m = .ok w1) :
    recordedInWorld mm w1 m.Version = true ∧
    (∀ v, recordedInWorld mm w v = true → recordedInWorld mm w1 v = true) ∧
    (∀ M, w.file = FileContent.stored M →
      w1.file = FileContent.stored (mapInsert M m.Version true)) := by
  obtain ⟨h1, h2, _⟩ := RecordMigration_spec mm w m w1 h
  refine ⟨h1, h2, ?_⟩
  intro M hf
  rw [RecordMigration_stored mm w m M hu hf] at h
  cases h
  rfl

namespace C9x

/-- A file-backed manager. -/
def mm : MigrationManager := ⟨[], "versions.json"⟩

/-- A migration built by `NewMigration`. -/
def m : Migration := NewMigration "Create users index" "main.createUsersIndex" none

/-- A world whose tracking file already records version `"aaaa1111"`. -/
def w : World := ⟨.stored [("aaaa1111", true)], [], false, 0⟩

/-- The world after recording `m`. -/
def w1 : World := { w with file := .stored (mapInsert [("aaaa1111", true)] m.Version true) }

end C9x

/-- Witness for C9: recording on a file already holding one version
keeps it and adds the new one. -/
theorem C9_tracking_monotonic_witness :
    useTextFile C9x.mm = true ∧
    RecordMigration C9x.mm C9x.w C9x.m = Except.ok C9x.w1 ∧
    recordedInWorld C9x.mm C9x.w1 C9x.m.Version = true ∧
    recordedInWorld C9x.mm C9x.w1 "aaaa1111" = true := by
  have h := C9_tracking_monotonic C9x.mm C9x.w C9x.m C9x.w1 (by decide) (by rfl)
  exact ⟨by decide, by rfl, h.1, h.2.1 "aaaa1111" (by decide)⟩

namespace C4x

/-- Two distinct migrations whose version tokens collide (a genuine
truncated-SHA-256 collision). -/
def ma : Migration := NewMigration "migration 9210" "main.main.func1" none

/-- The second half of the collision pair. -/
def mb : Migration := NewMigration "migration 19557" "main.main.func1" none

/-- The Manager after registering `ma` then `mb`. -/
def mm : MigrationManager := ⟨[ma, mb], "versions.json"⟩

/-- An empty file-backed tracking state. -/
def w : World := ⟨.missing, [], false, 0⟩

/-- The run outcome for the contract-allowed sorted slice `[mb, ma]`. -/
def out : RunResult := RunMigrationsWith mm w [mb, ma]

end C4x

/-- **C4 counterexample.** `sort.Slice` is not guaranteed stable, so
among equal versions the registration order need not be preserved:
`[mb, ma]` is a sorted (the two versions are equal) permutation of the
registered `[ma, mb]`, yet the migrations with that version no longer
appear in registration order. -/
theorem C4_counterexample :
    ¬ (∀ mm w out, RunMigrations mm w out →
        ∀ v, out.migrations.filter (fun m => m.Version == v) =
          mm.Migrations.filter (fun m => m.Version == v)) := by
  intro h
  have hvv : C4x.mb.Version = C4x.ma.Version := by rfl
  have hpw : versionSorted [C4x.mb, C4x.ma] := by
    refine List.pairwise_cons.mpr ⟨?_, List.pairwise_singleton _ _⟩
    intro b hb
    rw [List.mem_singleton] at hb
    subst hb
    rw [hvv]
    rfl
  have hrun : RunMigrations C4x.mm C4x.w C4x.out :=
    ⟨[C4x.mb, C4x.ma], ⟨List.Perm.swap C4x.ma C4x.mb [], hpw⟩, rfl⟩
  exact absurd (h C4x.mm C4x.w C4x.out hrun C4x.ma.Version) (by decide)

/-- **C4 (amended).** `run()` sorts the registered migrations by version
(ascending, Go string order on the hex tokens) before executing, so
bodies are invoked in ascending version order regardless of registration
order and the executed slice is a permutation of the registered one;
among equal versions the order is NOT specified (`sort.Slice` is not
stable — see the counterexample). -/
theorem C4_sorted_execution_amended (mm : MigrationManager) (w : World) (out : RunResult)
    (h : RunMigrations mm w out) :
    (invokedVersions out.trace).Pairwise (fun v1 v2 => goStrLt v2 v1 = false) ∧
    out.migrations.Perm mm.Migrations := by
  obtain ⟨sorted, ⟨hperm, hsort⟩, rfl⟩ := h
  cases hga : GetAppliedMigrations mm w with
  | error e =>
    constructor
    · have htr : (RunMigrationsWith mm w sorted).trace = [] := by
        simp [RunMigrationsWith, hga]
      rw [htr]
      exact List.Pairwise.nil
    · have hmigs : (RunMigrationsWith mm w sorted).migrations = mm.Migrations := by
        simp [RunMigrationsWith, hga]
      rw [hmigs]
  | ok pr =>
    obtain ⟨applied, w1⟩ := pr
    constructor
    · have htr : (RunMigrationsWith mm w sorted).trace = (runLoop mm applied w1 sorted).2.2 := by
        simp [RunMigrationsWith, hga]
      rw [htr]
      have hmapsorted : (sorted.map Migration.Version).Pairwise
          (fun v1 v2 => goStrLt v2 v1 = false) := List.pairwise_map.mpr hsort
      exact hmapsorted.sublist (runLoop_invoked_sublist mm applied sorted w1)
    · have hmigs : (RunMigrationsWith mm w sorted).migrations = sorted := by
        simp [RunMigrationsWith, hga]
      rw [hmigs]
      exact hperm

namespace C4w

/-- A migration with version `"e5d2697e"`. -/
def m1 : Migration := NewMigration "Add email field" "main.addEmailField" none

/-- A migration with version `"d6320a52"`, registered second although it
sorts first. -/
def m2 : Migration := NewMigration "Create orders index" "main.createOrdersIndex" none

/-- Registration in descending version order. -/
def mm : MigrationManager := ⟨[m1, m2], "versions.json"⟩

/-- An empty file-backed tracking state. -/
def w : World := ⟨.missing, [], false, 0⟩

/-- The run outcome for the sorted slice `[m2, m1]`. -/
def out : RunResult := RunMigrationsWith mm w [m2, m1]

end C4w

/-- Witness for the amended C4: registering in descending version order
still invokes the bodies in ascending version order. -/
theorem C4_sorted_execution_amended_witness :
    RunMigrations C4w.mm C4w.w C4w.out ∧
    (invokedVersions C4w.out.trace).Pairwise (fun v1 v2 => goStrLt v2 v1 = false) ∧
    invokedVersions C4w.out.trace = [C4w.m2.Version, C4w.m1.Version] := by
  have hrun : RunMigrations C4w.mm C4w.w C4w.out :=
    ⟨[C4w.m2, C4w.m1], ⟨List.Perm.swap C4w.m1 C4w.m2 [], by decide⟩, rfl⟩
  exact ⟨hrun, (C4_sorted_execution_amended C4w.mm C4w.w C4w.out hrun).1, by decide⟩

namespace C10x

/-- A migration with version `"e5d2697e"`. -/
def m1 : Migration := NewMigration "Add email field" "main.addEmailField" none

/-- A migration with version `"d6320a52"`. -/
def m2 : Migration := NewMigration "Create orders index" "main.createOrdersIndex" none

/-- Registration in descending version order. -/
def mm : MigrationManager := ⟨[m1, m2], "versions.json"⟩

/-- A tracking file whose content does not decode. -/
def w : World := ⟨.malformed, [], false, 0⟩

/-- The run outcome (any sorted slice gives the same outcome: the
applied-set query fails before the sort). -/
def out : RunResult := RunMigrationsWith mm w [m2, m1]

end C10x

/-- **C10 counterexample.** Not every call leaves the slice sorted: when
the applied-set query fails, `RunMigrations` returns before ever calling
`sort.Slice`, so the Manager's `Migrations` slice keeps its (unsorted)
registration order. -/
theorem C10_counterexample :
    ¬ (∀ mm w out, RunMigrations mm w out → versionSorted out.migrations) := by
  intro h
  have hrun : RunMigrations C10x.mm C10x.w C10x.out :=
    ⟨[C10x.m2, C10x.m1], ⟨List.Perm.swap C10x.m1 C10x.m2 [], by decide⟩, rfl⟩
  exact absurd (h C10x.mm C10x.w C10x.out hrun) (by decide)

/-- **C10 (amended).** Whenever the applied-set query succeeds (in
particular on every successful run), `RunMigrations` has permanently
reordered the Manager's `Migrations` slice in place into a
version-sorted permutation of the registered list, so the original
registration order is no longer observable on the Manager. -/
theorem C10_slice_reordered_amended (mm : MigrationManager) (w : World) (out : RunResult)
    (applied : List (String × Bool)) (w1 : World)
    (h : RunMigrations mm w out)
    (hga : GetAppliedMigrations mm w = .ok (applied, w1)) :
    out.migrations.Perm mm.Migrations ∧ versionSorted out.migrations := by
  obtain ⟨sorted, ⟨hperm, hsort⟩, rfl⟩ := h
  have hmigs : (RunMigrationsWith mm w sorted).migrations = sorted := by
    simp [RunMigrationsWith, hga]
  rw [hmigs]
  exact ⟨hperm, hsort⟩

/-- Witness for the amended C10: after a successful run the slice is the
sorted permutation `[m2, m1]` of the registered `[m1, m2]`. -/
theorem C10_slice_reordered_amended_witness :
    RunMigrations C4w.mm C4w.w C4w.out ∧
    GetAppliedMigrations C4w.mm C4w.w = .ok ([], C4w.w) ∧
    versionSorted C4w.out.migrations ∧
    C4w.out.migrations = [C4w.m2, C4w.m1] := by
  have hrun : RunMigrations C4w.mm C4w.w C4w.out :=
    ⟨[C4w.m2, C4w.m1], ⟨List.Perm.swap C4w.m1 C4w.m2 [], by decide⟩, rfl⟩
  have h := C10_slice_reordered_amended C4w.mm C4w.w C4w.out [] C4w.w hrun (by rfl)
  exact ⟨hrun, by rfl, h.2, by rfl⟩

namespace C1x

/-- One migration. -/
def mu : Migration := NewMigration "Create users index" "main.createUsersIndex" none

/-- The Manager after registering the same migration twice (`Register`
performs no uniqueness check). -/
def mm : MigrationManager := ⟨[mu, mu], "versions.json"⟩

/-- An empty file-backed tracking state. -/
def w : World := ⟨.missing, [], false, 0⟩

/-- The run outcome (the duplicate list is its own sorted slice). -/
def out : RunResult := RunMigrationsWith mm w [mu, mu]

end C1x

/-- **C1 counterexample.** When two registered migrations share a
version token, that version's body IS invoked twice in one run and
`RecordMigration` is called twice for it: the in-memory applied map is
read once at the start of the run and never refreshed inside the loop,
so the second duplicate still sees its version as pending. -/
theorem C1_counterexample :
    ¬ (∀ mm w out, RunMigrations mm w out →
        ∀ v, (invokedVersions out.trace).count v ≤ 1 ∧
             (recordedVersions out.trace).count v ≤ 1) := by
  intro h
  have hrun : RunMigrations C1x.mm C1x.w C1x.out :=
    ⟨[C1x.mu, C1x.mu], ⟨List.Perm.refl _, by decide⟩, rfl⟩
  exact absurd (h C1x.mm C1x.w C1x.out hrun C1x.mu.Version).1 (by decide)

/-- **C1 (amended).** Within a single run each registered migration's
body is invoked at most once, so every version is attempted at most as
often as it was registered and recorded at most as often as it was
registered; in particular, when the registered version tokens are
pairwise distinct, no version's body is invoked more than once per run
and `RecordMigration` is called at most once per version.  (Duplicate
registrations of one version are each attempted, because the applied map
is not refreshed during the loop.) -/
theorem C1_at_most_once_amended (mm : MigrationManager) (w : World) (out : RunResult)
    (h : RunMigrations mm w out) :
    (∀ v, (invokedVersions out.trace).count v ≤ (mm.Migrations.map Migration.Version).count v ∧
          (recordedVersions out.trace).count v ≤ (mm.Migrations.map Migration.Version).count v) ∧
    ((mm.Migrations.map Migration.Version).Nodup →
      ∀ v, (invokedVersions out.trace).count v ≤ 1 ∧
           (recordedVersions out.trace).count v ≤ 1) := by
  obtain ⟨sorted, ⟨hperm, hsort⟩, rfl⟩ := h
  have hpermv : (sorted.map Migration.Version).Perm (mm.Migrations.map Migration.Version) :=
    hperm.map _
  have hmain : ∀ v,
      (invokedVersions (RunMigrationsWith mm w sorted).trace).count v ≤
        (mm.Migrations.map Migration.Version).count v ∧
      (recordedVersions (RunMigrationsWith mm w sorted).trace).count v ≤
        (mm.Migrations.map Migration.Version).count v := by
    intro v
    cases hga : GetAppliedMigrations mm w with
    | error e =>
      have htr : (RunMigrationsWith mm w sorted).trace = [] := by
        simp [RunMigrationsWith, hga]
      rw [htr]
      simp [invokedVersions, recordedVersions]
    | ok pr =>
      obtain ⟨applied, w1⟩ := pr
      have htr : (RunMigrationsWith mm w sorted).trace = (runLoop mm applied w1 sorted).2.2 := by
        simp [RunMigrationsWith, hga]
      rw [htr]
      constructor
      · exact le_trans ((runLoop_invoked_sublist mm applied sorted w1).count_le v)
          (le_of_eq (hpermv.count_eq v))
      · exact le_trans ((runLoop_recorded_sublist mm applied sorted w1).count_le v)
          (le_of_eq (hpermv.count_eq v))
  refine ⟨hmain, ?_⟩
  intro hnd v
  have hb := List.nodup_iff_count_le_one.mp hnd v
  exact ⟨le_trans (hmain v).1 hb, le_trans (hmain v).2 hb⟩

/-- Witness for the amended C1: a run of two distinct-version
migrations invokes and records each version exactly once, hence at most
once. -/
theorem C1_at_most_once_amended_witness :
    RunMigrations C4w.mm C4w.w C4w.out ∧
    (C4w.mm.Migrations.map Migration.Version).Nodup ∧
    (invokedVersions C4w.out.trace).count C4w.m1.Version ≤ 1 ∧
    (recordedVersions C4w.out.trace).count C4w.m1.Version ≤ 1 := by
  have hrun : RunMigrations C4w.mm C4w.w C4w.out :=
    ⟨[C4w.m2, C4w.m1], ⟨List.Perm.swap C4w.m1 C4w.m2 [], by decide⟩, rfl⟩
  have h := (C1_at_most_once_amended C4w.mm C4w.w C4w.out hrun).2 (by decide) C4w.m1.Version
  exact ⟨hrun, by decide, h.1, h.2⟩

namespace C6x

/-- A migration with version `"54f03a2b"`, which sorts first and
succeeds. -/
def ok1 : Migration := NewMigration "Create users index" "main.createUsersIndex" none

/-- A migration with version `"d6320a52"` whose body fails. -/
def bad : Migration := NewMigration "Create orders index" "main.createOrdersIndex"
  (some "connection refused")

/-- A migration with version `"e5d2697e"`, which sorts after the failing
one and must never be invoked. -/
def ok2 : Migration := NewMigration "Add email field" "main.addEmailField" none

/-- The Manager with all three registered. -/
def mm : MigrationManager := ⟨[ok1, bad, ok2], "versions.json"⟩

/-- An empty file-backed tracking state. -/
def w : World := ⟨.missing, [], false, 0⟩

end C6x

/-- **C6.** Fail-fast: for every sorted pending sequence
`pre ++ mk :: post`, if `mk` is the first pending migration whose body
fails (everything before it is either already applied or succeeds), the
run aborts right there — the result is the error carrying the failing
version and the body's message, the final tracking state and trace are
exactly those of processing `pre` followed by the failing invocation
(so the bodies of `post` are never invoked in that run), and every
version recorded earlier in the run — as well as every version already
recorded before the run — remains recorded. -/
theorem C6_fail_fast (mm : MigrationManager) (w : World) (applied : List (String × Bool))
    (w1 : World) (pre post : List Migration) (mk : Migration) (msg : String)
    (hga : GetAppliedMigrations mm w = .ok (applied, w1))
    (hpre : ∀ m ∈ pre, mapGet applied m.Version = true ∨ m.UpErr = none)
    (hmk : mapGet applied mk.Version = false) (hup : mk.UpErr = some msg) :
    RunMigrationsWith mm w (pre ++ mk :: post) =
      ⟨.error (.applyFailed mk.Version msg), (runLoop mm applied w1 pre).2.1,
       pre ++ mk :: post, (runLoop mm applied w1 pre).2.2 ++ [.invoked mk.Version]⟩ ∧
    (∀ v, v ∈ recordedVersions (runLoop mm applied w1 pre).2.2 →
      recordedInWorld mm (runLoop mm applied w1 pre).2.1 v = true) ∧
    (∀ v, recordedInWorld mm w1 v = true →
      recordedInWorld mm (runLoop mm applied w1 pre).2.1 v = true) := by
  have hsafe : RecordSafe mm w1 := (GetApplied_spec mm w applied w1 hga).2.2.1
  refine ⟨?_, ?_, ?_⟩
  · simp only [RunMigrationsWith, hga]
    rw [runLoop_failFast mm applied pre w1 mk post msg hsafe hpre hmk hup]
  · intro v hv
    exact runLoop_recorded_in_world mm applied pre w1 v hv
  · intro v hv
    exact runLoop_world_mono mm applied pre w1 v hv

/-- Witness for C6: with `[ok1, bad, ok2]` sorted ascending and `bad`
failing, the run errors with `bad`'s version, invokes only `ok1` and
`bad`, and leaves `ok1` recorded. -/
theorem C6_fail_fast_witness :
    (RunMigrationsWith C6x.mm C6x.w [C6x.ok1, C6x.bad, C6x.ok2]).result =
      .error (.applyFailed C6x.bad.Version "connection refused") ∧
    invokedVersions (RunMigrationsWith C6x.mm C6x.w [C6x.ok1, C6x.bad, C6x.ok2]).trace =
      [C6x.ok1.Version, C6x.bad.Version] ∧
    recordedInWorld C6x.mm
      (RunMigrationsWith C6x.mm C6x.w [C6x.ok1, C6x.bad, C6x.ok2]).world C6x.ok1.Version = true := by
  have h := C6_fail_fast C6x.mm C6x.w [] C6x.w [C6x.ok1] [C6x.ok2] C6x.bad "connection refused"
    (by rfl) (by decide) (by decide) (by rfl)
  rw [show ([C6x.ok1] ++ C6x.bad :: [C6x.ok2]) = [C6x.ok1, C6x.bad, C6x.ok2] from rfl] at h
  rw [h.1]
  refine ⟨rfl, by decide, by decide⟩

/-! ## Idempotency machinery -/

/-- The loop never turns a record-safe world into an unsafe one. -/
theorem runLoop_RecordSafe (mm : MigrationManager) (applied : List (String × Bool)) :
    ∀ ms w, RecordSafe mm w → RecordSafe mm (runLoop mm applied w ms).2.1 := by
  intro ms
  induction ms with
  | nil =>
    intro w h
    simpa [runLoop] using h
  | cons m rest ih =>
    intro w h
    cases hap : mapGet applied m.Version with
    | true =>
      simp only [runLoop, hap, if_true]
      exact ih w h
    | false =>
      cases hup : m.UpErr with
      | some msg =>
        simpa only [runLoop, hap, Bool.false_eq_true, if_false, hup] using h
      | none =>
        cases hrec : RecordMigration mm w m with
        | error e =>
          simpa only [runLoop, hap, Bool.false_eq_true, if_false, hup, hrec] using h
        | ok w1 =>
          simp only [runLoop, hap, Bool.false_eq_true, if_false, hup, hrec]
          exact ih w1 ((RecordMigration_spec mm w m w1 hrec).2.2)

/-- From a record-safe world, the applied-set query succeeds. -/
theorem GetApplied_ok_of_RecordSafe (mm : MigrationManager) (w : World)
    (h : RecordSafe mm w) :
    ∃ applied w1, GetAppliedMigrations mm w = .ok (applied, w1) := by
  cases hu : useTextFile mm with
  | false => exact ⟨_, _, GetApplied_es mm w hu⟩
  | true =>
    cases hf : w.file with
    | missing => exact ⟨_, _, GetApplied_missing mm w hu hf⟩
    | stored M => exact ⟨_, _, GetApplied_stored mm w M hu hf⟩
    | malformed => exact absurd hf (h hu)

theorem invokedVersions_append (t1 t2 : List RunEvent) :
    invokedVersions (t1 ++ t2) = invokedVersions t1 ++ invokedVersions t2 :=
  List.filterMap_append _ _ _

theorem invokedVersions_map_skipped (ms : List Migration) :
    invokedVersions (ms.map fun m => RunEvent.skipped m.Version) = [] := by
  induction ms with
  | nil => rfl
  | cons m rest ih => simpa [invokedVersions_skipped] using ih

namespace C7x

/-- A migration whose body fails. -/
def bad : Migration := NewMigration "Create users index" "main.createUsersIndex" (some "boom")

/-- The Manager with that one migration. -/
def mm : MigrationManager := ⟨[bad], "versions.json"⟩

/-- An empty file-backed tracking state. -/
def w : World := ⟨.missing, [], false, 0⟩

/-- The first run: the body fails, nothing is recorded. -/
def out1 : RunResult := RunMigrationsWith mm w [bad]

/-- The second run: the same migration is still pending, so its body is
invoked again. -/
def out2 : RunResult := RunMigrationsWith ⟨out1.migrations, mm.FilePath⟩ out1.world [bad]

end C7x

/-- **C7 counterexample.** Running twice is not unconditionally
idempotent: when a body fails, the failed migration is never recorded,
so the second run invokes its body again — the second run performs a
(non-zero) invocation, does not report everything as skipped, and the
body runs twice in total. -/
theorem C7_counterexample :
    ¬ (∀ mm w out1 out2,
        RunMigrations mm w out1 →
        RunMigrations ⟨out1.migrations, mm.FilePath⟩ out1.world out2 →
        invokedVersions out2.trace = [] ∧
        out2.trace = out2.migrations.map (fun m => RunEvent.skipped m.Version) ∧
        (∀ m2 ∈ mm.Migrations,
          (invokedVersions (out1.trace ++ out2.trace)).count m2.Version ≤ 1)) := by
  intro h
  have h1 : RunMigrations C7x.mm C7x.w C7x.out1 :=
    ⟨[C7x.bad], ⟨List.Perm.refl _, by decide⟩, rfl⟩
  have h2 : RunMigrations ⟨C7x.out1.migrations, C7x.mm.FilePath⟩ C7x.out1.world C7x.out2 :=
    ⟨[C7x.bad], ⟨by decide, by decide⟩, rfl⟩
  exact absurd (h C7x.mm C7x.w C7x.out1 C7x.out2 h1 h2).1 (by decide)

/-- **C7 (amended).** When the first run succeeds and the applied-set
scan covers the whole tracking state (always for the file backend; up to
the fixed 1000-document page for the indexed backend), a second run in
succession invokes zero bodies and reports every migration as skipped;
and, when registered versions are pairwise distinct, each pending
migration's body is invoked exactly once across the two runs. -/
theorem C7_idempotent_amended (mm : MigrationManager) (w : World) (out1 out2 : RunResult)
    (applied : List (String × Bool)) (w1 : World)
    (h1 : RunMigrations mm w out1) (hok : out1.result = .ok ())
    (hga : GetAppliedMigrations mm w = .ok (applied, w1))
    (hcap : useTextFile mm = true ∨ out1.world.esRecords.length ≤ 1000)
    (h2 : RunMigrations ⟨out1.migrations, mm.FilePath⟩ out1.world out2) :
    invokedVersions out2.trace = [] ∧
    out2.trace = out2.migrations.map (fun m => RunEvent.skipped m.Version) ∧
    ((mm.Migrations.map Migration.Version).Nodup →
      ∀ m2 ∈ mm.Migrations, mapGet applied m2.Version = false →
        (invokedVersions (out1.trace ++ out2.trace)).count m2.Version = 1) := by
  obtain ⟨s1, ⟨hperm1, hsort1⟩, ho1⟩ := h1
  obtain ⟨s2, ⟨hperm2, hsort2⟩, ho2⟩ := h2
  subst ho1
  have hres : (RunMigrationsWith mm w s1).result = (runLoop mm applied w1 s1).1 := by
    simp [RunMigrationsWith, hga]
  have hwor : (RunMigrationsWith mm w s1).world = (runLoop mm applied w1 s1).2.1 := by
    simp [RunMigrationsWith, hga]
  have hmig : (RunMigrationsWith mm w s1).migrations = s1 := by
    simp [RunMigrationsWith, hga]
  have htr1 : (RunMigrationsWith mm w s1).trace = (runLoop mm applied w1 s1).2.2 := by
    simp [RunMigrationsWith, hga]
  rw [hres] at hok
  rw [hwor] at hcap
  rw [hmig] at hperm2
  obtain ⟨hfeq, hreq, hsafe1, hsound, _⟩ := GetApplied_spec mm w applied w1 hga
  have hsafeW1 : RecordSafe mm (runLoop mm applied w1 s1).2.1 :=
    runLoop_RecordSafe mm applied s1 w1 hsafe1
  obtain ⟨applied2, w2, hga2⟩ :=
    GetApplied_ok_of_RecordSafe mm (runLoop mm applied w1 s1).2.1 hsafeW1
  have hga2m : GetAppliedMigrations ⟨(RunMigrationsWith mm w s1).migrations, mm.FilePath⟩
      (RunMigrationsWith mm w s1).world = .ok (applied2, w2) := by
    rw [hmig, hwor]
    exact hga2
  have hall : ∀ m ∈ s1, recordedInWorld mm (runLoop mm applied w1 s1).2.1 m.Version = true :=
    runLoop_ok_recorded mm applied s1 w1 hsound hok
  have hall2 : ∀ m ∈ s2, mapGet applied2 m.Version = true := by
    intro m hm
    have hm1 : m ∈ s1 := (hperm2.mem_iff).mp hm
    exact (GetApplied_spec mm _ applied2 w2 hga2).2.2.2.2 hcap m.Version (hall m hm1)
  have hloop2 := runLoop_all_applied (⟨(RunMigrationsWith mm w s1).migrations, mm.FilePath⟩ :
    MigrationManager) applied2 s2 w2 hall2
  have htr2 : out2.trace = s2.map (fun m => RunEvent.skipped m.Version) := by
    rw [ho2, RunMigrationsWith, hga2m]
    simp [hloop2]
  have hmig2 : out2.migrations = s2 := by
    rw [ho2, RunMigrationsWith, hga2m]
  refine ⟨?_, ?_, ?_⟩
  · rw [htr2]
    exact invokedVersions_map_skipped s2
  · rw [htr2, hmig2]
  · intro hnd m2 hm2 hpend
    rw [invokedVersions_append, htr2, invokedVersions_map_skipped, List.append_nil, htr1]
    have hub : (invokedVersions (runLoop mm applied w1 s1).2.2).count m2.Version ≤ 1 := by
      refine le_trans ((runLoop_invoked_sublist mm applied s1 w1).count_le m2.Version) ?_
      rw [(hperm1.map Migration.Version).count_eq m2.Version]
      exact List.nodup_iff_count_le_one.mp hnd m2.Version
    have hlb : 0 < (invokedVersions (runLoop mm applied w1 s1).2.2).count m2.Version := by
      refine List.count_pos_iff.mpr ?_
      exact runLoop_ok_invoked mm applied s1 w1 hok m2 ((hperm1.mem_iff).mpr hm2) hpend
    omega

namespace C7w

/-- A migration that succeeds. -/
def mu : Migration := NewMigration "Add email field" "main.addEmailField" none

/-- The Manager with that one migration. -/
def mm : MigrationManager := ⟨[mu], "versions.json"⟩

/-- An empty file-backed tracking state. -/
def w : World := ⟨.missing, [], false, 0⟩

/-- The first run: the migration is applied and recorded. -/
def out1 : RunResult := RunMigrationsWith mm w [mu]

/-- The second run against the updated tracking state. -/
def out2 : RunResult := RunMigrationsWith ⟨out1.migrations, mm.FilePath⟩ out1.world [mu]

end C7w

/-- Witness for the amended C7: after one successful run the second run
invokes nothing, reports the migration as skipped, and the body ran
exactly once in total. -/
theorem C7_idempotent_amended_witness :
    RunMigrations C7w.mm C7w.w C7w.out1 ∧ C7w.out1.result = .ok () ∧
    invokedVersions C7w.out2.trace = [] ∧
    C7w.out2.trace = C7w.out2.migrations.map (fun m => RunEvent.skipped m.Version) ∧
    (invokedVersions (C7w.out1.trace ++ C7w.out2.trace)).count C7w.mu.Version = 1 := by
  have h1 : RunMigrations C7w.mm C7w.w C7w.out1 :=
    ⟨[C7w.mu], ⟨List.Perm.refl _, by decide⟩, rfl⟩
  have h2 : RunMigrations ⟨C7w.out1.migrations, C7w.mm.FilePath⟩ C7w.out1.world C7w.out2 :=
    ⟨[C7w.mu], ⟨by decide, by decide⟩, rfl⟩
  have h := C7_idempotent_amended C7w.mm C7w.w C7w.out1 C7w.out2 [] C7w.w h1 (by rfl) (by rfl)
    (Or.inl (by decide)) h2
  exact ⟨h1, by rfl, h.1, h.2.1, h.2.2 (by decide) C7w.mu (by decide) (by decide)⟩

namespace C2x

/-- An 8-hex-character token from a number (big-endian). -/
def vtok (i : Nat) : String := String.mk (hexEncode (bigEndianBytes 4 i))

/-- 1001 records with pairwise distinct version tokens, as 1001
successful `RecordMigration` calls would leave behind. -/
def recs : List MigrationRecord :=
  (List.range 1001).map (fun i => ⟨vtok i, "bulk migration", i, "main.bulkMigration"⟩)

/-- An indexed-backend (no file path) manager. -/
def mm : MigrationManager := ⟨[], ""⟩

/-- The tracking index holding the 1001 records. -/
def w : World := ⟨.missing, recs, true, 1001⟩

end C2x

/-- **C2 counterexample.** `GetAppliedMigrations` does not always return
every persisted version: the indexed backend reads with a single
`match_all` search capped at `WithSize(1000)`, so with 1001 persisted
records the 1001st version is recorded in the backend but missing from
the returned set. -/
theorem C2_counterexample :
    ¬ (∀ mm w applied w1, GetAppliedMigrations mm w = .ok (applied, w1) →
        ∀ v, mapGet applied v = true ↔ recordedInWorld mm w v = true) := by
  intro h
  have hga := GetApplied_es C2x.mm C2x.w (by rfl)
  have hiff := h C2x.mm C2x.w _ _ hga (C2x.vtok 1000)
  have hrec : recordedInWorld C2x.mm C2x.w (C2x.vtok 1000) = true := by
    rw [recordedInWorld_es C2x.mm C2x.w _ (by rfl)]
    decide
  have happ := hiff.mpr hrec
  rw [mapGet_foldl_insertTrue, mapGet_nil, Bool.false_or] at happ
  exact absurd happ (by decide)

/-- **C2 (amended).** Whenever the applied-set read succeeds and the
scan covers the whole store (always for the file backend; up to the
fixed 1000-document page for the indexed backend), the returned set
holds exactly the versions recorded in that backend; and an empty or
non-existent backing store yields the empty set rather than an error. -/
theorem C2_get_applied_amended (mm : MigrationManager) (w : World)
    (applied : List (String × Bool)) (w1 : World)
    (hga : GetAppliedMigrations mm w = .ok (applied, w1))
    (hcap : useTextFile mm = true ∨ w.esRecords.length ≤ 1000) :
    (∀ v, mapGet applied v = true ↔ recordedInWorld mm w v = true) ∧
    (∀ w0 : World, w0.file = FileContent.missing → w0.esRecords = [] →
      GetAppliedMigrations mm w0 = .ok ([], ensureMigrationsIndex mm w0)) := by
  obtain ⟨hfeq, hreq, _, hsound, hcomp⟩ := GetApplied_spec mm w applied w1 hga
  constructor
  · intro v
    constructor
    · intro hv
      have := hsound v hv
      rwa [recordedInWorld_congr mm w1 w hfeq hreq] at this
    · intro hv
      exact hcomp hcap v hv
  · intro w0 h0f h0r
    cases hu : useTextFile mm with
    | true =>
      rw [GetApplied_missing mm w0 hu h0f]
      simp [ensureMigrationsIndex, hu]
    | false =>
      rw [GetApplied_es mm w0 hu]
      simp [ensureMigrationsIndex, hu, h0r]

namespace C2w

/-- One persisted record. -/
def rec1 : MigrationRecord := ⟨"54f03a2b", "Create users index", 0, "main.createUsersIndex"⟩

/-- An indexed-backend manager. -/
def mm : MigrationManager := ⟨[], ""⟩

/-- The tracking index holding the single record. -/
def w : World := ⟨.missing, [rec1], true, 1⟩

end C2w

/-- Witness for the amended C2: with one record in the index, the read
returns exactly that version. -/
theorem C2_get_applied_amended_witness :
    GetAppliedMigrations C2w.mm C2w.w =
      .ok ([("54f03a2b", true)], { C2w.w with esIndexExists := true }) ∧
    (mapGet [("54f03a2b", true)] "54f03a2b" = true ↔
      recordedInWorld C2w.mm C2w.w "54f03a2b" = true) := by
  have h := C2_get_applied_amended C2w.mm C2w.w [("54f03a2b", true)]
    { C2w.w with esIndexExists := true } (by rfl) (Or.inr (by decide))
  exact ⟨by rfl, h.1 "54f03a2b"⟩

end Elasticmate
